import Mathlib

/-!
# TaskPlanner: the task store of `src/script.js`

A shallow embedding of the `TaskManager` class: the task collection, the
Daily Top 3 pin set, the undo buffer with its expiry timeouts, the deadline
checker and the filter engine.  Every mutable field of the class that the
operations below touch is a field of `State`; every value that the browser
supplies (the clock, fresh ids, date parsing) is an explicit argument.
-/

namespace TaskPlanner

/-! ## Data model -/

/-- One entry of `task.subtasks`: `{ title, completed }`. -/
structure Subtask where
  title : String
  completed : Bool
deriving DecidableEq

/-- A task record as built by `createTask`.  `deadline` and `completedAt` are
`null` (`none`) or a string; `reminded` is absent on a fresh record and only
ever tested for truthiness, so absent and `false` are both `false` here. -/
structure Task where
  id : String
  title : String
  description : String
  category : String
  priority : String
  deadline : Option String
  subtasks : List Subtask
  completed : Bool
  createdAt : String
  completedAt : Option String
  reminded : Bool
deriving DecidableEq

/-- The `taskData` argument of `createTask` (built by `handleTaskSubmit`);
`none` is an absent property. -/
structure TaskData where
  title : String
  description : Option String
  category : String
  priority : String
  deadline : Option String
  subtasks : Option (List Subtask)
deriving DecidableEq

/-- The `updates` argument of `updateTask`: any subset of the properties of a
task; `none` is a property the object does not carry. -/
structure TaskUpdates where
  id : Option String
  title : Option String
  description : Option String
  category : Option String
  priority : Option String
  deadline : Option (Option String)
  subtasks : Option (List Subtask)
  completed : Option Bool
  createdAt : Option String
  completedAt : Option (Option String)
  reminded : Option Bool
deriving DecidableEq

/-- The fields of a `TaskManager` instance together with the two
`localStorage` entries written by `saveData` and the timers the instance has
started: `timeouts` holds the fire time of every pending `setTimeout` of
`showUndoBar`, `intervals` the handles of the live `setInterval`s of
`notifyTaskDue`, `nextHandle` the handle the next `setInterval` returns. -/
structure State where
  tasks : List Task
  dailyTop3 : List String
  deletedTasks : List Task
  savedTasks : Option (List Task)
  savedTop3 : Option (List String)
  undoBarVisible : Bool
  timeouts : List Int
  ringInterval : Option Nat
  intervals : List Nat
  nextHandle : Nat
deriving DecidableEq

/-- The `currentFilter` object. -/
structure Filter where
  category : String
  status : String
  priority : String
  quick : Option String
  search : String
deriving DecidableEq

/-- What the browser provides and the source only calls: `new Date(str)` as a
millisecond timestamp (`none` for an invalid date), the local midnight of the
day of an instant, `String.prototype.toLowerCase`, `localeCompare`, and whether
the page has the `taskReminderSound` element. -/
structure Host where
  parseDate : String → Option Int
  startOfDay : Int → Int
  toLowerCase : String → String
  localeCompare : String → String → Int
  hasAudio : Bool

/-- A JSON document as `importData` sees it: an array of task records, or any
value that is not an array (kept as its text). -/
inductive JsonValue where
  | array (items : List Task)
  | nonArray (text : String)
deriving DecidableEq

/-- The file handed to `importData`: no file chosen, a file whose text
`JSON.parse` rejects, or a file that parses to a value. -/
inductive ImportFile where
  | noFile
  | unparsable
  | parsed (value : JsonValue)
deriving DecidableEq

/-! ## Helpers for the array methods the source uses -/

/-- JS `Array.prototype.findIndex`; `none` is the `-1` result. -/
def findIndex {α : Type} (p : α → Bool) : List α → Option Nat
  | [] => none
  | x :: xs => if p x then some 0 else (findIndex p xs).map (· + 1)

/-- Truthiness of a value that is `null` or a string. -/
def truthy : Option String → Bool
  | some s => s != ""
  | none => false

/-- JS `String.prototype.includes`. -/
def includes (s sub : String) : Bool :=
  decide (sub.toList <:+: s.toList)

/-! ## Persistence and timers -/

/-- JS `saveData`: both blobs are rewritten from the live fields. -/
def saveData (s : State) : State :=
  { s with savedTasks := some s.tasks, savedTop3 := some s.dailyTop3 }

/-- JS `stopRinging`: clears the interval held in `ringInterval`, when that field
is truthy. -/
def stopRinging (s : State) : State :=
  match s.ringInterval with
  | some h =>
    if h != 0 then
      { s with intervals := s.intervals.filter (· != h), ringInterval := none }
    else s
  | none => s

/-- JS `notifyTaskDue`, state part: with the audio element present a new
interval is started and its handle stored in `ringInterval`. -/
def notifyTaskDue (host : Host) (s : State) (_task : Task) : State :=
  if host.hasAudio then
    { s with ringInterval := some s.nextHandle,
             intervals := s.intervals ++ [s.nextHandle],
             nextHandle := s.nextHandle + 1 }
  else s

/-- JS `showUndoBar` called at time `now`: the bar is shown and a 5000 ms timeout
is scheduled; nothing is cancelled. -/
def showUndoBar (s : State) (now : Int) : State :=
  { s with undoBarVisible := true, timeouts := s.timeouts ++ [now + 5000] }

/-- The callback of the timeout of `showUndoBar`. -/
def expireUndo (s : State) : State :=
  { s with undoBarVisible := false, deletedTasks := [] }

/-- Time passes up to `t`: every pending timeout whose fire time has been
reached runs its callback and is no longer pending. -/
def advanceTo (s : State) (t : Int) : State :=
  let fired := s.timeouts.filter (fun f => decide (f ≤ t))
  let s1 := { s with timeouts := s.timeouts.filter (fun f => !decide (f ≤ t)) }
  fired.foldl (fun acc _ => expireUndo acc) s1

/-! ## Task store -/

/-- JS `createTask`; `newId` is the value of `generateId()`, `nowIso` the value
of `new Date().toISOString()`. -/
def createTask (s : State) (newId nowIso : String) (d : TaskData) : State × Task :=
  let task : Task :=
    { id := newId
      title := d.title
      description := if truthy d.description then d.description.getD "" else ""
      category := d.category
      priority := d.priority
      deadline := if truthy d.deadline then d.deadline else none
      subtasks := d.subtasks.getD []
      completed := false
      createdAt := nowIso
      completedAt := none
      reminded := false }
  (saveData { s with tasks := s.tasks ++ [task] }, task)

/-- The object spread `{ ...task, ...updates }`. -/
def mergeUpdates (t : Task) (u : TaskUpdates) : Task :=
  { id := u.id.getD t.id
    title := u.title.getD t.title
    description := u.description.getD t.description
    category := u.category.getD t.category
    priority := u.priority.getD t.priority
    deadline := u.deadline.getD t.deadline
    subtasks := u.subtasks.getD t.subtasks
    completed := u.completed.getD t.completed
    createdAt := u.createdAt.getD t.createdAt
    completedAt := u.completedAt.getD t.completedAt
    reminded := u.reminded.getD t.reminded }

/-- JS `updateTask`. -/
def updateTask (s : State) (taskId : String) (u : TaskUpdates) : State :=
  match findIndex (fun t => t.id == taskId) s.tasks with
  | none => s
  | some i =>
    match s.tasks[i]? with
    | none => s
    | some t => saveData { s with tasks := s.tasks.set i (mergeUpdates t u) }

/-- JS `deleteTask` called at time `now`. -/
def deleteTask (s : State) (taskId : String) (now : Int) : State :=
  match findIndex (fun t => t.id == taskId) s.tasks with
  | none => s
  | some i =>
    match s.tasks[i]? with
    | none => s
    | some deletedTask =>
      showUndoBar
        (saveData
          { s with tasks := s.tasks.eraseIdx i
                   deletedTasks := s.deletedTasks ++ [deletedTask]
                   dailyTop3 := s.dailyTop3.filter (fun id => id != taskId) })
        now

/-- The body of `toggleTaskCompletion` on the task it found. -/
def flipCompletion (nowIso : String) (t : Task) : Task :=
  let completed := !t.completed
  { t with
    completed := completed
    completedAt := if completed then some nowIso else none
    subtasks :=
      if completed && decide (t.subtasks.length > 0) then
        t.subtasks.map (fun st => { st with completed := true })
      else t.subtasks }

/-- JS `toggleTaskCompletion`. -/
def toggleTaskCompletion (s : State) (taskId nowIso : String) : State :=
  match findIndex (fun t => t.id == taskId) s.tasks with
  | none => s
  | some i =>
    match s.tasks[i]? with
    | none => s
    | some t =>
      stopRinging (saveData { s with tasks := s.tasks.set i (flipCompletion nowIso t) })

/-- JS `task.subtasks[subtaskIndex]`. -/
def subtaskAt (t : Task) (subtaskIndex : Int) : Option Subtask :=
  if 0 ≤ subtaskIndex then t.subtasks[subtaskIndex.toNat]? else none

/-- JS `toggleSubtask`. -/
def toggleSubtask (s : State) (taskId : String) (subtaskIndex : Int) : State :=
  match findIndex (fun t => t.id == taskId) s.tasks with
  | none => s
  | some i =>
    match s.tasks[i]? with
    | none => s
    | some t =>
      match subtaskAt t subtaskIndex with
      | none => s
      | some st =>
        let flipped : Subtask := { st with completed := !st.completed }
        let t1 : Task := { t with subtasks := t.subtasks.set subtaskIndex.toNat flipped }
        saveData { s with tasks := s.tasks.set i t1 }

/-! ## Daily Top 3 -/

/-- The text of the capacity alert. -/
def pinLimitAlert : String := "You can only pin 3 tasks to Daily Top 3"

/-- JS `toggleDailyTop3`; the second component is the text passed to `alert`. -/
def toggleDailyTop3 (s : State) (taskId : String) : State × Option String :=
  match findIndex (fun id => id == taskId) s.dailyTop3 with
  | none =>
    if s.dailyTop3.length < 3 then
      (saveData { s with dailyTop3 := s.dailyTop3 ++ [taskId] }, none)
    else (s, some pinLimitAlert)
  | some i => (saveData { s with dailyTop3 := s.dailyTop3.eraseIdx i }, none)

/-! ## Undo -/

/-- JS `undoDelete`. -/
def undoDelete (s : State) : State :=
  if s.deletedTasks.length > 0 then
    match s.deletedTasks.getLast? with
    | none => s
    | some restoredTask =>
      let s1 := saveData { s with deletedTasks := s.deletedTasks.dropLast
                                  tasks := s.tasks ++ [restoredTask] }
      { s1 with undoBarVisible := false }
  else s

/-! ## Import -/

/-- The three texts `importData` passes to `alert`. -/
def importOkAlert : String := "Tasks imported successfully!"

/-- Alert for a value that is not an array. -/
def importShapeAlert : String :=
  "Invalid JSON file format. Please import a valid tasks JSON file."

/-- Alert for text that `JSON.parse` rejects. -/
def importParseAlert : String :=
  "Error parsing JSON file. Please check the file content."

/-- JS `importData` together with the `onload` callback of its reader, on files
whose array, if any, holds complete task records and is rendered without an
exception; the second component is the text passed to `alert`, if any. The
callback on arbitrary arrays, with the exceptions its `try` block catches, is
`importDataRaw`. -/
def importData (s : State) (file : ImportFile) : State × Option String :=
  match file with
  | .noFile => (s, none)
  | .unparsable => (s, some importParseAlert)
  | .parsed (.nonArray _) => (s, some importShapeAlert)
  | .parsed (.array importedTasks) =>
    (saveData { s with tasks := importedTasks }, some importOkAlert)

/-- An element of the array of a parsed file: an object with every field of a
task record, or any other JSON value (a number, `null`, an object that lacks
`subtasks`, ...), kept as its text. -/
inductive JsonItem where
  | record (task : Task)
  | other (text : String)
deriving DecidableEq

/-- A parsed JSON document whose array elements are left as they come. -/
inductive RawJson where
  | array (items : List JsonItem)
  | nonArray (text : String)
deriving DecidableEq

/-- The file handed to `importData`, array elements left as they come. -/
inductive RawFile where
  | noFile
  | unparsable
  | parsed (value : RawJson)
deriving DecidableEq

/-- The fields of a `TaskManager` and the `localStorage` entries that
`importData` reads or writes, with collections that may hold any JSON value,
as `this.tasks` does after `this.tasks = importedTasks`. -/
structure RawStore where
  tasks : List JsonItem
  dailyTop3 : List String
  deletedTasks : List JsonItem
  savedTasks : Option (List JsonItem)
  savedTop3 : Option (List String)
deriving DecidableEq

/-- JS `saveData` on a `RawStore`. -/
def saveDataRaw (s : RawStore) : RawStore :=
  { s with savedTasks := some s.tasks, savedTop3 := some s.dailyTop3 }

/-- JS `importData` with the `onload` callback of its reader and the `try` block
of that callback. `JSON.parse` throwing leads to the `catch`, which raises the
parse alert. For an array the callback assigns `this.tasks`, calls `saveData`,
then `renderTasks` and `renderDailyTop3`; these read fields of the items
(`task.subtasks.map`, `t.id`) and throw on an item that lacks them, which the
same `catch` turns into the parse alert after the store has been replaced and
saved. `renderThrows` says whether the two render calls throw on the new
store. -/
def importDataRaw (renderThrows : RawStore → Bool) (s : RawStore) (file : RawFile) :
    RawStore × Option String :=
  match file with
  | .noFile => (s, none)
  | .unparsable => (s, some importParseAlert)
  | .parsed (.nonArray _) => (s, some importShapeAlert)
  | .parsed (.array importedTasks) =>
    let s1 := saveDataRaw { s with tasks := importedTasks }
    if renderThrows s1 then (s1, some importParseAlert)
    else (s1, some importOkAlert)

/-- A renderer that throws exactly when the collection holds an item that is
not a complete task record, as `renderTasks` does on an item without `subtasks`
when no filter hides it. -/
def throwsOnIncomplete (s : RawStore) : Bool :=
  s.tasks.any (fun item =>
    match item with
    | .record _ => false
    | .other _ => true)

/-- A typed store as a `RawStore`. -/
def rawStore (s : State) : RawStore :=
  { tasks := s.tasks.map JsonItem.record
    dailyTop3 := s.dailyTop3
    deletedTasks := s.deletedTasks.map JsonItem.record
    savedTasks := s.savedTasks.map (fun l => l.map JsonItem.record)
    savedTop3 := s.savedTop3 }

/-- A typed file as a `RawFile`. -/
def rawFile : ImportFile → RawFile
  | .noFile => .noFile
  | .unparsable => .unparsable
  | .parsed (.nonArray text) => .parsed (.nonArray text)
  | .parsed (.array items) => .parsed (.array (items.map JsonItem.record))

/-! ## Deadline checker -/

/-- The two nested conditions of the interval callback of
`startDeadlineChecker` for one task. -/
def dueNow (host : Host) (now : Int) (task : Task) : Bool :=
  (truthy task.deadline && !task.completed) &&
    ((match task.deadline.bind host.parseDate with
      | some deadline => decide (deadline ≤ now)
      | none => false) && !task.reminded)

/-- The `forEach` of the interval callback: `done` are the tasks already
visited, the second list the tasks still to visit; the last argument collects
the tasks handed to `notifyTaskDue`, in call order. -/
def tickLoop (host : Host) (now : Int) :
    List Task → List Task → State → List Task → State × List Task
  | _, [], s, notified => (s, notified)
  | done, task :: rest, s, notified =>
    if dueNow host now task then
      let s1 := notifyTaskDue host s task
      let marked : Task := { task with reminded := true }
      let s2 := saveData { s1 with tasks := done ++ marked :: rest }
      tickLoop host now (done ++ [marked]) rest s2 (notified ++ [task])
    else tickLoop host now (done ++ [task]) rest s notified

/-- One run of the interval callback of `startDeadlineChecker` at time `now`:
the new state and the tasks passed to `notifyTaskDue`. -/
def tick (host : Host) (s : State) (now : Int) : State × List Task :=
  tickLoop host now [] s.tasks s []

/-! ## Filtering and sorting -/

/-- The table `priorityOrder`; `none` is `undefined`. -/
def priorityOrder (p : String) : Option Int :=
  if p = "high" then some 3 else if p = "medium" then some 2
  else if p = "low" then some 1 else none

/-- A subtraction whose operands may be `NaN`; a `NaN` result counts as `0`
for `Array.prototype.sort`. -/
def subOrZero : Option Int → Option Int → Int
  | some x, some y => x - y
  | _, _ => 0

/-- The comparator of `sortTasks`. -/
def compareTasks (host : Host) (currentSort : String) (a b : Task) : Int :=
  if currentSort = "priority" then
    subOrZero (priorityOrder b.priority) (priorityOrder a.priority)
  else if currentSort = "deadline" then
    if !truthy a.deadline && !truthy b.deadline then 0
    else if !truthy a.deadline then 1
    else if !truthy b.deadline then -1
    else subOrZero (a.deadline.bind host.parseDate) (b.deadline.bind host.parseDate)
  else if currentSort = "title" then host.localeCompare a.title b.title
  else subOrZero (host.parseDate b.createdAt) (host.parseDate a.createdAt)

/-- JS `sortTasks`: `Array.prototype.sort` is a stable sort, modelled by the
stable insertion sort; `a` stays before `b` when the comparator is not
positive. When the comparator is a consistent order on the list (no key is
`NaN`) every stable sort returns this list. When a key is `NaN` the comparator
is not transitive and the order is left to the engine: only the permutation,
and the result on lists the engine finds already in order, are then those of
this definition. -/
def sortTasks (host : Host) (currentSort : String) (tasks : List Task) : List Task :=
  tasks.insertionSort (fun a b => compareTasks host currentSort a b ≤ 0)

/-- The predicate of the quick filter named `quick` at time `now`; an
unknown name filters nothing. -/
def quickMatch (host : Host) (quick : String) (now : Int) (task : Task) : Bool :=
  let today := host.startOfDay now
  let tomorrow := today + 24 * 60 * 60 * 1000
  if quick = "overdue" then
    if !truthy task.deadline then false
    else
      (match task.deadline.bind host.parseDate with
        | some deadline => decide (deadline < now)
        | none => false) && !task.completed
  else if quick = "due-today" then
    if !truthy task.deadline then false
    else
      match task.deadline.bind host.parseDate with
      | some deadline => decide (deadline ≥ today) && decide (deadline < tomorrow)
      | none => false
  else if quick = "due-soon" then
    if !truthy task.deadline then false
    else
      let dayAfterTomorrow := tomorrow + 24 * 60 * 60 * 1000
      match task.deadline.bind host.parseDate with
      | some deadline => decide (deadline ≥ tomorrow) && decide (deadline < dayAfterTomorrow)
      | none => false
  else true

/-- The filter chain of `getFilteredTasks`, before sorting. -/
def filterTasks (host : Host) (tasks : List Task) (f : Filter) (now : Int) : List Task :=
  let filtered := tasks
  let filtered :=
    if f.category != "all" then filtered.filter (fun task => task.category == f.category)
    else filtered
  let filtered :=
    if f.status == "active" then filtered.filter (fun task => !task.completed)
    else if f.status == "completed" then filtered.filter (fun task => task.completed)
    else filtered
  let filtered :=
    if f.priority != "all" then filtered.filter (fun task => task.priority == f.priority)
    else filtered
  let filtered :=
    if truthy f.quick then filtered.filter (quickMatch host (f.quick.getD "") now)
    else filtered
  let filtered :=
    if f.search != "" then
      let searchLower := host.toLowerCase f.search
      filtered.filter (fun task =>
        includes (host.toLowerCase task.title) searchLower ||
        includes (host.toLowerCase task.description) searchLower)
    else filtered
  filtered

/-- JS `getFilteredTasks` on the task list `tasks` with filter `f`, sort key
`currentSort`, at time `now`. -/
def getFilteredTasks (host : Host) (tasks : List Task) (f : Filter)
    (currentSort : String) (now : Int) : List Task :=
  sortTasks host currentSort (filterTasks host tasks f now)

/-! ## Sequences of operations -/

/-- One call into the store, with the values the browser supplies to it. -/
inductive Op where
  | createTask (newId nowIso : String) (d : TaskData)
  | updateTask (taskId : String) (u : TaskUpdates)
  | deleteTask (taskId : String) (now : Int)
  | toggleTaskCompletion (taskId nowIso : String)
  | toggleSubtask (taskId : String) (subtaskIndex : Int)
  | toggleDailyTop3 (taskId : String)
  | undoDelete
  | importData (file : ImportFile)
  | tick (now : Int)
  | advanceTo (t : Int)

/-- The state after one call. -/
def step (host : Host) (s : State) : Op → State
  | .createTask newId nowIso d => (createTask s newId nowIso d).1
  | .updateTask taskId u => updateTask s taskId u
  | .deleteTask taskId now => deleteTask s taskId now
  | .toggleTaskCompletion taskId nowIso => toggleTaskCompletion s taskId nowIso
  | .toggleSubtask taskId subtaskIndex => toggleSubtask s taskId subtaskIndex
  | .toggleDailyTop3 taskId => (toggleDailyTop3 s taskId).1
  | .undoDelete => undoDelete s
  | .importData file => (importData s file).1
  | .tick now => (tick host s now).1
  | .advanceTo t => advanceTo s t

/-- The state after a sequence of calls, first call first. -/
def run (host : Host) (s : State) (ops : List Op) : State :=
  ops.foldl (step host) s

/-- Successive runs of the deadline checker at the given times, with nothing
else happening in between: the final state and every task passed to
`notifyTaskDue`, in call order. -/
def runTicks (host : Host) : State → List Int → State × List Task
  | s, [] => (s, [])
  | s, now :: rest =>
    let first := tick host s now
    let later := runTicks host first.1 rest
    (later.1, first.2 ++ later.2)

/-- The scenario of two deletes: `deleteTask(a.id)` at time `t1`, then the
clock moves to `t2` and `deleteTask(b.id)` is called. -/
def deleteTwo (s : State) (a b : Task) (t1 t2 : Int) : State :=
  deleteTask (advanceTo (deleteTask s a.id t1) t2) b.id t2

/-- The state of a freshly constructed `TaskManager` with empty storage. -/
def emptyState : State :=
  { tasks := [], dailyTop3 := [], deletedTasks := [], savedTasks := none,
    savedTop3 := none, undoBarVisible := false, timeouts := [],
    ringInterval := none, intervals := [], nextHandle := 1 }

/-! ## Concrete inputs used by the examples -/

/-- A host whose dates are the decimal strings `"100"`, `"200"` and `"300"`. -/
def demoHost : Host :=
  { parseDate := fun str =>
      if str = "100" then some 100 else if str = "200" then some 200
      else if str = "300" then some 300 else none
    startOfDay := fun t => t - t % 86400000
    toLowerCase := fun str => str
    localeCompare := fun a b => if a < b then -1 else if a = b then 0 else 1
    hasAudio := true }

/-- A task with the given id and title and no deadline. -/
def demoTask (id title : String) : Task :=
  { id := id, title := title, description := "", category := "work",
    priority := "low", deadline := none, subtasks := [], completed := false,
    createdAt := "100", completedAt := none, reminded := false }

/-- A store holding the given tasks and pins and nothing else. -/
def demoState (tasks : List Task) (pins : List String) : State :=
  { emptyState with tasks := tasks, dailyTop3 := pins }

/-- An `updates` object with no property at all. -/
def noUpdates : TaskUpdates :=
  { id := none, title := none, description := none, category := none,
    priority := none, deadline := none, subtasks := none, completed := none,
    createdAt := none, completedAt := none, reminded := none }

/-- A task with two subtasks, the first one done. -/
def demoTaskWithSubtasks (id : String) : Task :=
  { demoTask id "Plan" with
    subtasks := [{ title := "one", completed := true }, { title := "two", completed := false }] }

/-- An `updates` object that carries only `completed: true`. -/
def onlyCompleted : TaskUpdates := { noUpdates with completed := some true }

/-- An open task whose deadline `"100"` has not been reminded yet. -/
def dueTask : Task := { demoTask "d" "Due" with deadline := some "100" }

/-- A completed task whose deadline `"100"` is long past. -/
def doneLateTask : Task :=
  { demoTask "e" "Done late" with
    deadline := some "100", completed := true, completedAt := some "200" }

/-- The filter that only has the quick filter `overdue` switched on. -/
def overdueFilter : Filter :=
  { category := "all", status := "all", priority := "all", quick := some "overdue",
    search := "" }

/-- An `updates` object that carries only a new id. -/
def onlyId : TaskUpdates := { noUpdates with id := some "z" }

/-- An `updates` object that carries only a new title. -/
def onlyTitle : TaskUpdates := { noUpdates with title := some "Renamed" }

/-- A store with no live task whose undo buffer holds a record with
`completed` true and `completedAt` null. -/
def dirtyBufferState : State :=
  { emptyState with deletedTasks := [{ demoTask "b" "B" with completed := true }] }

/-- The `taskData` of a form submission with one subtask. -/
def demoTaskData : TaskData :=
  { title := "New", description := none, category := "home", priority := "high",
    deadline := some "100", subtasks := some [{ title := "s", completed := false }] }

/-- A sequence using every call of the store but an import. -/
def demoOps : List Op :=
  [.createTask "n1" "100" demoTaskData, .updateTask "n1" onlyTitle,
   .toggleTaskCompletion "a" "200", .toggleSubtask "n1" 0, .deleteTask "a" 0,
   .tick 150, .undoDelete, .toggleTaskCompletion "a" "300", .toggleDailyTop3 "n1",
   .advanceTo 6000]

/-! ## Predicates used in the statements -/

/-- The record invariant of the data model: `completed` is true exactly when
`completedAt` is not `null`. -/
def completionConsistent (t : Task) : Prop :=
  t.completed = true ↔ t.completedAt ≠ none

instance (t : Task) : Decidable (completionConsistent t) := by
  unfold completionConsistent; infer_instance

/-- An `updates` object that cannot separate `completed` from `completedAt`:
it carries neither property, or both and in agreement. -/
def updatesKeepCompletion (u : TaskUpdates) : Prop :=
  (u.completed = none ∧ u.completedAt = none) ∨
  ∃ c a, u.completed = some c ∧ u.completedAt = some a ∧ (c = true ↔ a ≠ none)

/-- The calls covered by the completion invariant: every call but an import,
with `updateTask` restricted to `updatesKeepCompletion`. -/
def completionSafe : Op → Prop
  | .updateTask _ u => updatesKeepCompletion u
  | .importData _ => False
  | _ => True

/-- The completion invariant on a store: it holds for the live tasks and for
the records waiting in the undo buffer. -/
def CompletionInv (s : State) : Prop :=
  (∀ t ∈ s.tasks, completionConsistent t) ∧ (∀ t ∈ s.deletedTasks, completionConsistent t)

/-- Every pinned id is the id of a live task. -/
def PinsLive (s : State) : Prop :=
  ∀ id ∈ s.dailyTop3, ∃ t ∈ s.tasks, t.id = id

instance (s : State) : Decidable (PinsLive s) := by
  unfold PinsLive; infer_instance

/-- The calls covered by the pin invariant, in the state they are made in:
`toggleDailyTop3` on the id of a live task, `updateTask` with fields that do
not carry `id`, an import whose array has a task for every pinned id, and every
other call. -/
def pinSafe (s : State) : Op → Prop
  | .toggleDailyTop3 taskId => ∃ t ∈ s.tasks, t.id = taskId
  | .updateTask _ u => u.id = none
  | .importData (.parsed (.array items)) => ∀ id ∈ s.dailyTop3, ∃ t ∈ items, t.id = id
  | _ => True

/-- Every call of the sequence is `pinSafe` in the state it is made in. -/
def pinSafeRun (host : Host) : State → List Op → Prop
  | _, [] => True
  | s, op :: rest => pinSafe s op ∧ pinSafeRun host (step host s op) rest

/-- The category axis of the filter. -/
def passesCategory (f : Filter) (t : Task) : Bool :=
  f.category == "all" || t.category == f.category

/-- The status axis of the filter. -/
def passesStatus (f : Filter) (t : Task) : Bool :=
  if f.status == "active" then !t.completed
  else if f.status == "completed" then t.completed else true

/-- The priority axis of the filter. -/
def passesPriority (f : Filter) (t : Task) : Bool :=
  f.priority == "all" || t.priority == f.priority

/-- The quick-filter axis. -/
def passesQuick (host : Host) (f : Filter) (now : Int) (t : Task) : Bool :=
  if truthy f.quick then quickMatch host (f.quick.getD "") now t else true

/-- The search axis of the filter. -/
def passesSearch (host : Host) (f : Filter) (t : Task) : Bool :=
  if f.search != "" then
    includes (host.toLowerCase t.title) (host.toLowerCase f.search) ||
      includes (host.toLowerCase t.description) (host.toLowerCase f.search)
  else true

/-- The test of the `overdue` quick filter, spelled out: the task has a
deadline, the deadline parses to a time strictly before `now`, and the task is
not completed. -/
def isOverdue (host : Host) (now : Int) (t : Task) : Prop :=
  truthy t.deadline = true ∧ t.completed = false ∧
    ∃ d, t.deadline.bind host.parseDate = some d ∧ d < now

/-- What one run of the deadline checker at `now` does to a single task. -/
def markReminded (host : Host) (now : Int) (t : Task) : Task :=
  if dueNow host now t then { t with reminded := true } else t

/-- The creation time of a task as a timestamp (`0` when `createdAt` is not a
valid date). -/
def createdKey (host : Host) (t : Task) : Int :=
  (host.parseDate t.createdAt).getD 0

/-- The deadline of a task as a timestamp (`0` when there is none or it is not
a valid date). -/
def deadlineKey (host : Host) (t : Task) : Int :=
  (t.deadline.bind host.parseDate).getD 0

/-- The order `sortTasks` follows under the `deadline` key when every deadline
is a valid date: `a` may stand before `b` when `b` has no deadline, or both
have one and the deadline of `a` is not later. -/
def deadlineOrder (host : Host) (a b : Task) : Prop :=
  truthy b.deadline = false ∨
    (truthy a.deadline = true ∧ truthy b.deadline = true ∧
      deadlineKey host a ≤ deadlineKey host b)

instance (host : Host) : DecidableRel (deadlineOrder host) := by
  intro a b; unfold deadlineOrder; infer_instance

/-- A task with deadline `"300"`. -/
def lateTask : Task := { demoTask "l" "Late" with deadline := some "300" }

/-- A task whose deadline string is not a date. -/
def badDateTask : Task := { demoTask "x" "Bad date" with deadline := some "soon" }

/-- A task with deadline `"100"`. -/
def earlyTask : Task := { demoTask "e" "Early" with deadline := some "100" }

/-- The ids that `generateId` returns during a sequence of calls, in order. -/
def createdIds : List Op → List String
  | [] => []
  | .createTask newId _ _ :: rest => newId :: createdIds rest
  | _ :: rest => createdIds rest

/-- The calls covered by the uniqueness of ids: `updateTask` with fields that
do not carry `id`, and every other call but `undoDelete` and an import. -/
def idSafe : Op → Prop
  | .updateTask _ u => u.id = none
  | .undoDelete => False
  | .importData _ => False
  | _ => True

/-- An `updates` object that carries only the id `"n1"`. -/
def renameToFirst : TaskUpdates := { noUpdates with id := some "n1" }

/-- The four filter axes in the words of the specification: the category is
`all` or that of the task; the status is `all`, or `active` with an open task,
or `completed` with a completed one; the priority is `all` or that of the task;
the search string is empty or occurs, after lower-casing both sides, as a
substring of the title or of the description. -/
def specMatches (host : Host) (f : Filter) (t : Task) : Prop :=
  (f.category = "all" ∨ t.category = f.category) ∧
  (f.status = "all" ∨ (f.status = "active" ∧ t.completed = false) ∨
    (f.status = "completed" ∧ t.completed = true)) ∧
  (f.priority = "all" ∨ t.priority = f.priority) ∧
  (f.search = "" ∨
    (host.toLowerCase f.search).toList <:+: (host.toLowerCase t.title).toList ∨
    (host.toLowerCase f.search).toList <:+: (host.toLowerCase t.description).toList)

/-- A filter on category `work`, open tasks, any priority, search `pla`. -/
def workFilter : Filter :=
  { category := "work", status := "active", priority := "all", quick := none,
    search := "pla" }

/-- An open task of category `work` titled `plan trip`. -/
def planTask : Task := demoTask "p" "plan trip"

/-- The cascade predicate of the data model: a completed task has all its
subtasks completed. -/
def subtasksDone (t : Task) : Prop :=
  t.completed = true → ∀ st ∈ t.subtasks, st.completed = true

instance (t : Task) : Decidable (subtasksDone t) := by
  unfold subtasksDone; infer_instance

/-- The cascade predicate on a store: it holds for the live tasks and for the
records waiting in the undo buffer. -/
def CascadeInv (s : State) : Prop :=
  (∀ t ∈ s.tasks, subtasksDone t) ∧ (∀ t ∈ s.deletedTasks, subtasksDone t)

/-- The calls covered by the cascade predicate, in the state they are made in:
`toggleSubtask` on an id whose live tasks are not completed, `updateTask` with
fields that carry neither `completed` nor `subtasks`, and every other call but
an import. -/
def cascadeSafe (s : State) : Op → Prop
  | .toggleSubtask taskId _ => ∀ t ∈ s.tasks, t.id = taskId → t.completed = false
  | .updateTask _ u => u.completed = none ∧ u.subtasks = none
  | .importData _ => False
  | _ => True

/-- Every call of the sequence is `cascadeSafe` in the state it is made in. -/
def cascadeSafeRun (host : Host) : State → List Op → Prop
  | _, [] => True
  | s, op :: rest => cascadeSafe s op ∧ cascadeSafeRun host (step host s op) rest

/-- A second open task whose deadline `"100"` has not been reminded yet. -/
def otherDueTask : Task := { demoTask "o" "Also due" with deadline := some "100" }

/-- A store with two tasks that both become due at the next tick and no timer
running. -/
def twoDueState : State := demoState [dueTask, otherDueTask] []

/-- The task `x` with the flag of its subtask `st` at index `i` flipped, as
`toggleSubtask` leaves it. -/
def withSubtaskFlipped (x : Task) (i : Int) (st : Subtask) : Task :=
  { x with subtasks := x.subtasks.set i.toNat { st with completed := !st.completed } }

/-- A completed task with two completed subtasks. -/
def completedWithSubtasks : Task :=
  { demoTask "c" "Done" with
    completed := true, completedAt := some "200",
    subtasks := [{ title := "one", completed := true }, { title := "two", completed := true }] }

/-- Three tasks created at the times 100, 200 and 300. -/
def createdAt100 : Task := { demoTask "t1" "First" with createdAt := "100" }

/-- The task created at 200. -/
def createdAt200 : Task := { demoTask "t2" "Second" with createdAt := "200" }

/-- The task created at 300. -/
def createdAt300 : Task := { demoTask "t3" "Third" with createdAt := "300" }

/-! ## Lemmas on the helpers -/

theorem findIndex_eq_none {α : Type} (p : α → Bool) (l : List α) :
    findIndex p l = none ↔ ∀ x ∈ l, p x = false := by
  induction l with
  | nil => simp [findIndex]
  | cons a l ih =>
    by_cases h : p a = true
    · simp [findIndex, h]
    · simp [findIndex, h, ih]

theorem findIndex_eq_some {α : Type} (p : α → Bool) (l : List α) (i : Nat)
    (h : findIndex p l = some i) :
    ∃ pre x post, l = pre ++ x :: post ∧ pre.length = i ∧ p x = true ∧
      ∀ y ∈ pre, p y = false := by
  induction l generalizing i with
  | nil => simp [findIndex] at h
  | cons a l ih =>
    by_cases ha : p a = true
    · simp [findIndex, ha] at h
      exact ⟨[], a, l, by simp, by simpa using h, ha, by simp⟩
    · simp [findIndex, ha] at h
      obtain ⟨j, hj, rfl⟩ := h
      obtain ⟨pre, x, post, hl, hlen, hx, hpre⟩ := ih j hj
      refine ⟨a :: pre, x, post, by simp [hl], by simp [hlen], hx, ?_⟩
      intro y hy
      rcases List.mem_cons.1 hy with rfl | hy
      · simpa using ha
      · exact hpre y hy

/-- JS `findIndex` finds the first element satisfying `p`. -/
theorem findIndex_append {α : Type} (p : α → Bool) (pre post : List α) (x : α)
    (hx : p x = true) (hpre : ∀ y ∈ pre, p y = false) :
    findIndex p (pre ++ x :: post) = some pre.length := by
  induction pre with
  | nil => simp [findIndex, hx]
  | cons a pre ih =>
    have ha : p a = false := hpre a (by simp)
    have := ih (fun y hy => hpre y (by simp [hy]))
    simp [findIndex, ha, this]

theorem getElem?_split {α : Type} (pre post : List α) (x : α) :
    (pre ++ x :: post)[pre.length]? = some x := by
  induction pre with
  | nil => simp
  | cons a pre ih => simpa using ih

theorem set_split {α : Type} (pre post : List α) (x y : α) :
    (pre ++ x :: post).set pre.length y = pre ++ y :: post := by
  simp

theorem eraseIdx_split {α : Type} (pre post : List α) (x : α) :
    (pre ++ x :: post).eraseIdx pre.length = pre ++ post := by
  induction pre with
  | nil => simp
  | cons a pre ih => simpa using ih

/-- Looking a task up by id either misses every task or splits the list at
the first task with that id. -/
theorem findIndex_id_cases (tasks : List Task) (taskId : String) :
    (findIndex (fun t => t.id == taskId) tasks = none ∧ ∀ t ∈ tasks, t.id ≠ taskId) ∨
    ∃ pre x post, tasks = pre ++ x :: post ∧
      findIndex (fun t => t.id == taskId) tasks = some pre.length ∧
      tasks[pre.length]? = some x ∧ x.id = taskId ∧ ∀ y ∈ pre, y.id ≠ taskId := by
  cases h : findIndex (fun t => t.id == taskId) tasks with
  | none =>
    left
    refine ⟨rfl, ?_⟩
    intro t ht
    have := (findIndex_eq_none _ _).1 h t ht
    simpa using this
  | some i =>
    right
    obtain ⟨pre, x, post, hl, hlen, hx, hpre⟩ := findIndex_eq_some _ _ _ h
    refine ⟨pre, x, post, hl, by rw [hlen], ?_, by simpa using hx, ?_⟩
    · rw [hl]; exact getElem?_split pre post x
    · intro y hy
      have := hpre y hy
      simpa using this

/-! ## Frame lemmas: what each operation does to the pin set -/

theorem notifyTaskDue_dailyTop3 (host : Host) (s : State) (t : Task) :
    (notifyTaskDue host s t).dailyTop3 = s.dailyTop3 := by
  unfold notifyTaskDue; split <;> rfl

theorem stopRinging_dailyTop3 (s : State) : (stopRinging s).dailyTop3 = s.dailyTop3 := by
  unfold stopRinging; split
  · split <;> rfl
  · rfl

theorem tickLoop_dailyTop3 (host : Host) (now : Int) (todo done : List Task) (s : State)
    (ns : List Task) : (tickLoop host now done todo s ns).1.dailyTop3 = s.dailyTop3 := by
  induction todo generalizing done s ns with
  | nil => rfl
  | cons t rest ih =>
    unfold tickLoop
    split
    · rw [ih]; simp [saveData, notifyTaskDue_dailyTop3]
    · rw [ih]

theorem foldl_expire_dailyTop3 (fired : List Int) (s : State) :
    (fired.foldl (fun acc _ => expireUndo acc) s).dailyTop3 = s.dailyTop3 := by
  induction fired generalizing s with
  | nil => rfl
  | cons f fired ih => simp only [List.foldl_cons]; rw [ih]; rfl

theorem advanceTo_dailyTop3 (s : State) (t : Int) : (advanceTo s t).dailyTop3 = s.dailyTop3 := by
  unfold advanceTo; simp only []; rw [foldl_expire_dailyTop3]

theorem updateTask_dailyTop3 (s : State) (taskId : String) (u : TaskUpdates) :
    (updateTask s taskId u).dailyTop3 = s.dailyTop3 := by
  unfold updateTask; split
  · rfl
  · split <;> rfl

theorem toggleTaskCompletion_dailyTop3 (s : State) (taskId nowIso : String) :
    (toggleTaskCompletion s taskId nowIso).dailyTop3 = s.dailyTop3 := by
  unfold toggleTaskCompletion; split
  · rfl
  · split
    · rfl
    · rw [stopRinging_dailyTop3]; rfl

theorem toggleSubtask_dailyTop3 (s : State) (taskId : String) (i : Int) :
    (toggleSubtask s taskId i).dailyTop3 = s.dailyTop3 := by
  unfold toggleSubtask; split
  · rfl
  · split
    · rfl
    · split <;> rfl

theorem undoDelete_dailyTop3 (s : State) : (undoDelete s).dailyTop3 = s.dailyTop3 := by
  unfold undoDelete; split
  · split <;> rfl
  · rfl

theorem importData_dailyTop3 (s : State) (file : ImportFile) :
    (importData s file).1.dailyTop3 = s.dailyTop3 := by
  unfold importData; split <;> rfl

theorem deleteTask_dailyTop3 (s : State) (taskId : String) (now : Int) :
    (deleteTask s taskId now).dailyTop3 = s.dailyTop3 ∨
    (deleteTask s taskId now).dailyTop3 = s.dailyTop3.filter (fun id => id != taskId) := by
  unfold deleteTask; split
  · left; rfl
  · split
    · left; rfl
    · right; rfl

theorem toggleDailyTop3_length (s : State) (taskId : String) (h : s.dailyTop3.length ≤ 3) :
    (toggleDailyTop3 s taskId).1.dailyTop3.length ≤ 3 := by
  unfold toggleDailyTop3; split
  · split
    · simp [saveData]; omega
    · exact h
  · simp [saveData, List.length_eraseIdx]; split <;> omega

theorem step_dailyTop3_length (host : Host) (s : State) (op : Op)
    (h : s.dailyTop3.length ≤ 3) : (step host s op).dailyTop3.length ≤ 3 := by
  cases op with
  | createTask newId nowIso d => exact h
  | updateTask taskId u => simp only [step]; rw [updateTask_dailyTop3]; exact h
  | deleteTask taskId now =>
    simp only [step]
    rcases deleteTask_dailyTop3 s taskId now with e | e
    · rw [e]; exact h
    · rw [e]; exact le_trans (List.length_filter_le _ _) h
  | toggleTaskCompletion taskId nowIso =>
    simp only [step]; rw [toggleTaskCompletion_dailyTop3]; exact h
  | toggleSubtask taskId i => simp only [step]; rw [toggleSubtask_dailyTop3]; exact h
  | toggleDailyTop3 taskId => exact toggleDailyTop3_length s taskId h
  | undoDelete => simp only [step]; rw [undoDelete_dailyTop3]; exact h
  | importData file => simp only [step]; rw [importData_dailyTop3]; exact h
  | tick now => simp only [step, tick]; rw [tickLoop_dailyTop3]; exact h
  | advanceTo t => simp only [step]; rw [advanceTo_dailyTop3]; exact h

theorem run_dailyTop3_length (host : Host) (ops : List Op) (s : State)
    (h : s.dailyTop3.length ≤ 3) : (run host s ops).dailyTop3.length ≤ 3 := by
  induction ops generalizing s with
  | nil => exact h
  | cons op ops ih => exact ih _ (step_dailyTop3_length host s op h)

/-! ## C1: the pin set holds at most three ids -/

/-- C1. Starting from a state `s` with an empty pin set, after every sequence
`ops` of store calls (every call of `Op`, so in particular every sequence of
`toggleDailyTop3` and `deleteTask` calls) the pin set has at most 3 entries;
and in every state `full` whose pin set holds 3 ids, `toggleDailyTop3` with an
id that is not pinned returns `full` itself (pin set, task collection and every
other field unchanged) together with the capacity alert. -/
theorem pin_set_at_most_three (host : Host) (s : State) (ops : List Op)
    (full : State) (taskId : String)
    (hempty : s.dailyTop3 = []) (hfull : full.dailyTop3.length = 3)
    (hnew : taskId ∉ full.dailyTop3) :
    (run host s ops).dailyTop3.length ≤ 3 ∧
    toggleDailyTop3 full taskId = (full, some pinLimitAlert) := by
  refine ⟨run_dailyTop3_length host ops s (by simp [hempty]), ?_⟩
  have hnone : findIndex (fun id => id == taskId) full.dailyTop3 = none := by
    rw [findIndex_eq_none]
    intro x hx
    have : x ≠ taskId := fun e => hnew (e ▸ hx)
    simpa using this
  unfold toggleDailyTop3
  rw [hnone]
  simp [hfull]

/-- C1 at a concrete input: four pins asked for on an empty pin set, then a
delete; and a fourth pin on a full pin set. -/
theorem pin_set_at_most_three_witness :
    (run demoHost (demoState [demoTask "a" "A"] [])
        [.toggleDailyTop3 "a", .toggleDailyTop3 "b", .toggleDailyTop3 "c",
         .toggleDailyTop3 "d", .deleteTask "a" 0]).dailyTop3.length ≤ 3 ∧
    toggleDailyTop3 (demoState [] ["a", "b", "c"]) "d" =
      (demoState [] ["a", "b", "c"], some pinLimitAlert) :=
  pin_set_at_most_three demoHost (demoState [demoTask "a" "A"] [])
    [.toggleDailyTop3 "a", .toggleDailyTop3 "b", .toggleDailyTop3 "c",
     .toggleDailyTop3 "d", .deleteTask "a" 0]
    (demoState [] ["a", "b", "c"]) "d" rfl rfl (by decide)

/-! ## What each operation does on a hit and on a miss -/

theorem updateTask_miss (s : State) (taskId : String) (u : TaskUpdates)
    (h : ∀ t ∈ s.tasks, t.id ≠ taskId) : updateTask s taskId u = s := by
  have hn : findIndex (fun t => t.id == taskId) s.tasks = none := by
    rw [findIndex_eq_none]; intro x hx; simpa using h x hx
  unfold updateTask; rw [hn]

theorem updateTask_hit (s : State) (taskId : String) (u : TaskUpdates)
    (pre post : List Task) (x : Task) (hs : s.tasks = pre ++ x :: post)
    (hx : x.id = taskId) (hpre : ∀ y ∈ pre, y.id ≠ taskId) :
    updateTask s taskId u =
      saveData { s with tasks := pre ++ mergeUpdates x u :: post } := by
  have hf : findIndex (fun t => t.id == taskId) s.tasks = some pre.length := by
    rw [hs]; exact findIndex_append _ pre post x (by simp [hx])
      (fun y hy => by simpa using hpre y hy)
  unfold updateTask
  rw [hf]; simp only []
  rw [hs, getElem?_split]; simp only [set_split]

theorem deleteTask_miss (s : State) (taskId : String) (now : Int)
    (h : ∀ t ∈ s.tasks, t.id ≠ taskId) : deleteTask s taskId now = s := by
  have hn : findIndex (fun t => t.id == taskId) s.tasks = none := by
    rw [findIndex_eq_none]; intro x hx; simpa using h x hx
  unfold deleteTask; rw [hn]

theorem deleteTask_hit (s : State) (taskId : String) (now : Int)
    (pre post : List Task) (x : Task) (hs : s.tasks = pre ++ x :: post)
    (hx : x.id = taskId) (hpre : ∀ y ∈ pre, y.id ≠ taskId) :
    deleteTask s taskId now =
      showUndoBar
        (saveData
          { s with tasks := pre ++ post
                   deletedTasks := s.deletedTasks ++ [x]
                   dailyTop3 := s.dailyTop3.filter (fun id => id != taskId) })
        now := by
  have hf : findIndex (fun t => t.id == taskId) s.tasks = some pre.length := by
    rw [hs]; exact findIndex_append _ pre post x (by simp [hx])
      (fun y hy => by simpa using hpre y hy)
  unfold deleteTask
  rw [hf]; simp only []
  rw [hs, getElem?_split, eraseIdx_split]

theorem toggleTaskCompletion_miss (s : State) (taskId nowIso : String)
    (h : ∀ t ∈ s.tasks, t.id ≠ taskId) : toggleTaskCompletion s taskId nowIso = s := by
  have hn : findIndex (fun t => t.id == taskId) s.tasks = none := by
    rw [findIndex_eq_none]; intro x hx; simpa using h x hx
  unfold toggleTaskCompletion; rw [hn]

theorem toggleTaskCompletion_hit (s : State) (taskId nowIso : String)
    (pre post : List Task) (x : Task) (hs : s.tasks = pre ++ x :: post)
    (hx : x.id = taskId) (hpre : ∀ y ∈ pre, y.id ≠ taskId) :
    toggleTaskCompletion s taskId nowIso =
      stopRinging (saveData { s with tasks := pre ++ flipCompletion nowIso x :: post }) := by
  have hf : findIndex (fun t => t.id == taskId) s.tasks = some pre.length := by
    rw [hs]; exact findIndex_append _ pre post x (by simp [hx])
      (fun y hy => by simpa using hpre y hy)
  unfold toggleTaskCompletion
  rw [hf]; simp only []
  rw [hs, getElem?_split]; simp only [set_split]

theorem stopRinging_tasks (s : State) : (stopRinging s).tasks = s.tasks := by
  unfold stopRinging; split
  · split <;> rfl
  · rfl

theorem stopRinging_deletedTasks (s : State) :
    (stopRinging s).deletedTasks = s.deletedTasks := by
  unfold stopRinging; split
  · split <;> rfl
  · rfl

theorem notifyTaskDue_deletedTasks (host : Host) (s : State) (t : Task) :
    (notifyTaskDue host s t).deletedTasks = s.deletedTasks := by
  unfold notifyTaskDue; split <;> rfl

/-- The tasks after the loop of the deadline checker: every task visited is
replaced by its `markReminded`. -/
theorem tickLoop_tasks (host : Host) (now : Int) (todo done : List Task) (s : State)
    (ns : List Task) (h : s.tasks = done ++ todo) :
    (tickLoop host now done todo s ns).1.tasks = done ++ todo.map (markReminded host now) := by
  induction todo generalizing done s ns with
  | nil => simpa [tickLoop] using h
  | cons t rest ih =>
    unfold tickLoop
    by_cases hd : dueNow host now t = true
    · rw [if_pos hd]
      simp only []
      rw [ih _ _ _ (by simp [saveData])]
      simp [markReminded, hd]
    · rw [if_neg hd]
      rw [ih _ _ _ (by simp [h])]
      simp [markReminded, hd]

/-- The tasks handed to `notifyTaskDue` by the loop: the due ones, in order. -/
theorem tickLoop_notified (host : Host) (now : Int) (todo done : List Task) (s : State)
    (ns : List Task) :
    (tickLoop host now done todo s ns).2 = ns ++ todo.filter (dueNow host now) := by
  induction todo generalizing done s ns with
  | nil => simp [tickLoop]
  | cons t rest ih =>
    unfold tickLoop
    by_cases hd : dueNow host now t = true
    · rw [if_pos hd]; simp only []; rw [ih]; simp [hd]
    · rw [if_neg hd, ih]; simp [hd]

theorem tickLoop_deletedTasks (host : Host) (now : Int) (todo done : List Task) (s : State)
    (ns : List Task) : (tickLoop host now done todo s ns).1.deletedTasks = s.deletedTasks := by
  induction todo generalizing done s ns with
  | nil => rfl
  | cons t rest ih =>
    unfold tickLoop
    split
    · rw [ih]; simp [saveData, notifyTaskDue_deletedTasks]
    · rw [ih]

theorem tick_tasks (host : Host) (s : State) (now : Int) :
    (tick host s now).1.tasks = s.tasks.map (markReminded host now) := by
  unfold tick; rw [tickLoop_tasks host now s.tasks [] s [] (by simp)]; simp

theorem tick_notified (host : Host) (s : State) (now : Int) :
    (tick host s now).2 = s.tasks.filter (dueNow host now) := by
  unfold tick; rw [tickLoop_notified]; simp

theorem foldl_expire_tasks (fired : List Int) (s : State) :
    (fired.foldl (fun acc _ => expireUndo acc) s).tasks = s.tasks := by
  induction fired generalizing s with
  | nil => rfl
  | cons f fired ih => simp only [List.foldl_cons]; rw [ih]; rfl

theorem foldl_expire_deletedTasks (fired : List Int) (s : State) :
    (fired.foldl (fun acc _ => expireUndo acc) s).deletedTasks =
      if fired = [] then s.deletedTasks else [] := by
  induction fired generalizing s with
  | nil => rfl
  | cons f fired ih =>
    simp only [List.foldl_cons]; rw [ih]
    by_cases hf : fired = [] <;> simp [hf, expireUndo]

theorem advanceTo_tasks (s : State) (t : Int) : (advanceTo s t).tasks = s.tasks := by
  unfold advanceTo; simp only []; rw [foldl_expire_tasks]

theorem toggleSubtask_miss (s : State) (taskId : String) (i : Int)
    (h : ∀ t ∈ s.tasks, t.id ≠ taskId) : toggleSubtask s taskId i = s := by
  have hn : findIndex (fun t => t.id == taskId) s.tasks = none := by
    rw [findIndex_eq_none]; intro x hx; simpa using h x hx
  unfold toggleSubtask; rw [hn]

theorem toggleSubtask_miss_index (s : State) (taskId : String) (i : Int)
    (pre post : List Task) (x : Task) (hs : s.tasks = pre ++ x :: post)
    (hx : x.id = taskId) (hpre : ∀ y ∈ pre, y.id ≠ taskId)
    (hi : subtaskAt x i = none) : toggleSubtask s taskId i = s := by
  have hf : findIndex (fun t => t.id == taskId) s.tasks = some pre.length := by
    rw [hs]; exact findIndex_append _ pre post x (by simp [hx])
      (fun y hy => by simpa using hpre y hy)
  unfold toggleSubtask
  rw [hf]; simp only []
  rw [hs, getElem?_split]; simp only [hi]

theorem toggleSubtask_hit (s : State) (taskId : String) (i : Int)
    (pre post : List Task) (x : Task) (st : Subtask) (hs : s.tasks = pre ++ x :: post)
    (hx : x.id = taskId) (hpre : ∀ y ∈ pre, y.id ≠ taskId)
    (hi : subtaskAt x i = some st) :
    toggleSubtask s taskId i =
      saveData { s with tasks := pre ++
        { x with subtasks := x.subtasks.set i.toNat { st with completed := !st.completed } }
          :: post } := by
  have hf : findIndex (fun t => t.id == taskId) s.tasks = some pre.length := by
    rw [hs]; exact findIndex_append _ pre post x (by simp [hx])
      (fun y hy => by simpa using hpre y hy)
  unfold toggleSubtask
  rw [hf]; simp only []
  rw [hs, getElem?_split]; simp only [hi, set_split]

/-! ## C2: `completed` and `completedAt` -/

theorem flipCompletion_consistent (nowIso : String) (t : Task) :
    completionConsistent (flipCompletion nowIso t) := by
  unfold completionConsistent flipCompletion
  cases h : t.completed <;> simp [h]

theorem mergeUpdates_consistent (t : Task) (u : TaskUpdates)
    (hu : updatesKeepCompletion u) (ht : completionConsistent t) :
    completionConsistent (mergeUpdates t u) := by
  unfold completionConsistent mergeUpdates
  rcases hu with ⟨h1, h2⟩ | ⟨c, a, h1, h2, h3⟩
  · simpa [h1, h2] using ht
  · simpa [h1, h2] using h3

theorem markReminded_consistent (host : Host) (now : Int) (t : Task)
    (ht : completionConsistent t) : completionConsistent (markReminded host now t) := by
  unfold markReminded; split
  · exact ht
  · exact ht

theorem step_completionInv (host : Host) (s : State) (op : Op)
    (hop : completionSafe op) (h : CompletionInv s) : CompletionInv (step host s op) := by
  obtain ⟨hl, hb⟩ := h
  cases op with
  | createTask newId nowIso d =>
    refine ⟨?_, hb⟩
    intro t ht
    simp only [step, createTask, saveData, List.mem_append, List.mem_singleton] at ht
    rcases ht with ht | rfl
    · exact hl t ht
    · simp [completionConsistent]
  | updateTask taskId u =>
    simp only [step]
    rcases findIndex_id_cases s.tasks taskId with ⟨-, hm⟩ | ⟨pre, x, post, hs, -, -, hx, hpre⟩
    · rw [updateTask_miss s taskId u hm]; exact ⟨hl, hb⟩
    · rw [updateTask_hit s taskId u pre post x hs hx hpre]
      refine ⟨?_, hb⟩
      intro t ht
      simp only [saveData, List.mem_append, List.mem_cons] at ht
      rcases ht with ht | rfl | ht
      · exact hl t (by rw [hs]; simp [ht])
      · exact mergeUpdates_consistent x u hop (hl x (by rw [hs]; simp))
      · exact hl t (by rw [hs]; simp [ht])
  | deleteTask taskId now =>
    simp only [step]
    rcases findIndex_id_cases s.tasks taskId with ⟨-, hm⟩ | ⟨pre, x, post, hs, -, -, hx, hpre⟩
    · rw [deleteTask_miss s taskId now hm]; exact ⟨hl, hb⟩
    · rw [deleteTask_hit s taskId now pre post x hs hx hpre]
      constructor
      · intro t ht
        simp only [showUndoBar, saveData, List.mem_append] at ht
        rcases ht with ht | ht
        · exact hl t (by rw [hs]; simp [ht])
        · exact hl t (by rw [hs]; simp [ht])
      · intro t ht
        simp only [showUndoBar, saveData, List.mem_append, List.mem_singleton] at ht
        rcases ht with ht | rfl
        · exact hb t ht
        · exact hl t (by rw [hs]; simp)
  | toggleTaskCompletion taskId nowIso =>
    simp only [step]
    rcases findIndex_id_cases s.tasks taskId with ⟨-, hm⟩ | ⟨pre, x, post, hs, -, -, hx, hpre⟩
    · rw [toggleTaskCompletion_miss s taskId nowIso hm]; exact ⟨hl, hb⟩
    · rw [toggleTaskCompletion_hit s taskId nowIso pre post x hs hx hpre]
      constructor
      · intro t ht
        rw [stopRinging_tasks] at ht
        simp only [saveData, List.mem_append, List.mem_cons] at ht
        rcases ht with ht | rfl | ht
        · exact hl t (by rw [hs]; simp [ht])
        · exact flipCompletion_consistent nowIso x
        · exact hl t (by rw [hs]; simp [ht])
      · intro t ht
        rw [stopRinging_deletedTasks] at ht
        exact hb t ht
  | toggleSubtask taskId i =>
    simp only [step]
    rcases findIndex_id_cases s.tasks taskId with ⟨-, hm⟩ | ⟨pre, x, post, hs, -, -, hx, hpre⟩
    · rw [toggleSubtask_miss s taskId i hm]; exact ⟨hl, hb⟩
    · cases hi : subtaskAt x i with
      | none => rw [toggleSubtask_miss_index s taskId i pre post x hs hx hpre hi]; exact ⟨hl, hb⟩
      | some st =>
        rw [toggleSubtask_hit s taskId i pre post x st hs hx hpre hi]
        refine ⟨?_, hb⟩
        intro t ht
        simp only [saveData, List.mem_append, List.mem_cons] at ht
        rcases ht with ht | rfl | ht
        · exact hl t (by rw [hs]; simp [ht])
        · exact hl x (by rw [hs]; simp)
        · exact hl t (by rw [hs]; simp [ht])
  | toggleDailyTop3 taskId =>
    simp only [step, toggleDailyTop3]
    split
    · split
      · exact ⟨hl, hb⟩
      · exact ⟨hl, hb⟩
    · exact ⟨hl, hb⟩
  | undoDelete =>
    simp only [step, undoDelete]
    split
    · split
      · exact ⟨hl, hb⟩
      · rename_i r hr
        have hmem : r ∈ s.deletedTasks := List.mem_of_getLast?_eq_some hr
        constructor
        · intro t ht
          simp only [saveData, List.mem_append, List.mem_singleton] at ht
          rcases ht with ht | rfl
          · exact hl t ht
          · exact hb t hmem
        · intro t ht
          exact hb t (List.dropLast_subset _ ht)
    · exact ⟨hl, hb⟩
  | importData file => exact absurd hop (by simp [completionSafe])
  | tick now =>
    simp only [step]
    constructor
    · intro t ht
      rw [tick_tasks] at ht
      obtain ⟨t0, ht0, rfl⟩ := List.mem_map.1 ht
      exact markReminded_consistent host now t0 (hl t0 ht0)
    · intro t ht
      simp only [tick] at ht
      rw [tickLoop_deletedTasks] at ht
      exact hb t ht
  | advanceTo t1 =>
    simp only [step]
    constructor
    · intro t ht
      rw [advanceTo_tasks] at ht
      exact hl t ht
    · intro t ht
      simp only [advanceTo] at ht
      rw [foldl_expire_deletedTasks] at ht
      split at ht
      · exact hb t ht
      · simp at ht

theorem run_completionInv (host : Host) (ops : List Op) (s : State)
    (hops : ∀ op ∈ ops, completionSafe op) (h : CompletionInv s) :
    CompletionInv (run host s ops) := by
  induction ops generalizing s with
  | nil => exact h
  | cons op ops ih =>
    exact ih _ (fun o ho => hops o (by simp [ho]))
      (step_completionInv host s op (hops op (by simp)) h)

/-- C2, as amended. Starting from a state in which `completed` is true exactly
when `completedAt` is non-null for every live task and for every record in the
undo buffer, the same holds for every live task after every sequence of
`createTask`, `deleteTask`, `toggleTaskCompletion`, `toggleSubtask`,
`undoDelete`, deadline-checker ticks (and pin toggles and undo expiries), and of
`updateTask` calls whose fields carry neither `completed` nor `completedAt`, or
both in agreement. -/
theorem completion_consistent_after_ops (host : Host) (s : State) (ops : List Op)
    (hlive : ∀ t ∈ s.tasks, completionConsistent t)
    (hbuf : ∀ t ∈ s.deletedTasks, completionConsistent t)
    (hops : ∀ op ∈ ops, completionSafe op) :
    ∀ t ∈ (run host s ops).tasks, completionConsistent t :=
  (run_completionInv host ops s hops ⟨hlive, hbuf⟩).1

/-- C2 as amended, at a concrete input: a store with one task and the sequence
`demoOps`, which uses every covered call. -/
theorem completion_consistent_after_ops_witness :
    (∀ t ∈ (demoState [demoTask "a" "A"] []).tasks, completionConsistent t) ∧
    ∀ t ∈ (run demoHost (demoState [demoTask "a" "A"] []) demoOps).tasks,
      completionConsistent t :=
  ⟨by decide,
   completion_consistent_after_ops demoHost (demoState [demoTask "a" "A"] []) demoOps
    (by decide) (by decide)
    (by
      intro op hop
      simp only [demoOps, List.mem_cons, List.mem_singleton, List.not_mem_nil, or_false] at hop
      rcases hop with rfl | rfl | rfl | rfl | rfl | rfl | rfl | rfl | rfl | rfl <;>
        simp [completionSafe, updatesKeepCompletion, onlyTitle, noUpdates])⟩

/-- C2 as stated fails. `updateTask` with the fields `{ completed: true }` on a
store whose only task is consistent leaves a live task with `completed` true and
`completedAt` null; and `undoDelete` brings an inconsistent record of the undo
buffer back into a live collection that was consistent. -/
theorem completion_consistent_counterexample :
    ((∀ t ∈ (demoState [demoTask "a" "A"] []).tasks, completionConsistent t) ∧
      ¬ ∀ t ∈ (updateTask (demoState [demoTask "a" "A"] []) "a" onlyCompleted).tasks,
          completionConsistent t) ∧
    ((∀ t ∈ dirtyBufferState.tasks, completionConsistent t) ∧
      ¬ ∀ t ∈ (undoDelete dirtyBufferState).tasks, completionConsistent t) := by
  decide

/-! ## C3: completing a task completes its subtasks -/

/-- C3. Let `x` be a live task that `toggleTaskCompletion` addresses by its id
(the tasks `pre` before it carry other ids, as they do whenever ids are
unique). The call replaces `x`, in place, by a record `y` with the same id. If
`x` was not completed, `y` is completed, has as many subtasks as `x`, all of
them completed, with the same titles in the same order. If `x` was completed,
`y` is not completed, its `completedAt` is null, and its subtasks are those of
`x`, flags included. -/
theorem toggle_completion_subtasks (s : State) (nowIso : String)
    (pre post : List Task) (x : Task)
    (hs : s.tasks = pre ++ x :: post) (hfirst : ∀ y ∈ pre, y.id ≠ x.id) :
    ∃ y, (toggleTaskCompletion s x.id nowIso).tasks = pre ++ y :: post ∧ y.id = x.id ∧
      (x.completed = false →
        y.completed = true ∧ y.completedAt = some nowIso ∧
        y.subtasks.length = x.subtasks.length ∧
        (∀ st ∈ y.subtasks, st.completed = true) ∧
        y.subtasks.map (fun st => st.title) = x.subtasks.map (fun st => st.title)) ∧
      (x.completed = true →
        y.completed = false ∧ y.completedAt = none ∧ y.subtasks = x.subtasks) := by
  refine ⟨flipCompletion nowIso x, ?_, rfl, ?_, ?_⟩
  · rw [toggleTaskCompletion_hit s x.id nowIso pre post x hs rfl hfirst, stopRinging_tasks]
    rfl
  · intro hc
    have hmap : (flipCompletion nowIso x).subtasks =
        x.subtasks.map (fun st => { st with completed := true }) := by
      unfold flipCompletion
      cases hx : x.subtasks <;> simp [hc, hx]
    refine ⟨by simp [flipCompletion, hc], by simp [flipCompletion, hc], ?_, ?_, ?_⟩
    · rw [hmap]; simp
    · rw [hmap]; intro st hst
      obtain ⟨st0, -, rfl⟩ := List.mem_map.1 hst
      rfl
    · rw [hmap]; simp [List.map_map, Function.comp_def]
  · intro hc
    refine ⟨by simp [flipCompletion, hc], by simp [flipCompletion, hc], ?_⟩
    simp [flipCompletion, hc]

/-- C3 at a concrete input: a task with two subtasks, one of them open, is
completed and then un-completed. -/
theorem toggle_completion_subtasks_witness :
    ∃ y, (toggleTaskCompletion
        (demoState [demoTask "a" "A", demoTaskWithSubtasks "p"] [])
        (demoTaskWithSubtasks "p").id "200").tasks = [demoTask "a" "A"] ++ y :: [] ∧
      y.id = (demoTaskWithSubtasks "p").id ∧
      ((demoTaskWithSubtasks "p").completed = false →
        y.completed = true ∧ y.completedAt = some "200" ∧
        y.subtasks.length = (demoTaskWithSubtasks "p").subtasks.length ∧
        (∀ st ∈ y.subtasks, st.completed = true) ∧
        y.subtasks.map (fun st => st.title) =
          (demoTaskWithSubtasks "p").subtasks.map (fun st => st.title)) ∧
      ((demoTaskWithSubtasks "p").completed = true →
        y.completed = false ∧ y.completedAt = none ∧
        y.subtasks = (demoTaskWithSubtasks "p").subtasks) :=
  toggle_completion_subtasks (demoState [demoTask "a" "A", demoTaskWithSubtasks "p"] [])
    "200" [demoTask "a" "A"] [] (demoTaskWithSubtasks "p") rfl (by decide)

/-! ## C4: deleting a pinned task -/

theorem filter_id_split (pre post : List Task) (x : Task)
    (hnodup : ((pre ++ x :: post).map (fun t => t.id)).Nodup) :
    (pre ++ x :: post).filter (fun t => t.id != x.id) = pre ++ post := by
  have h1 : ∀ y ∈ pre, y.id ≠ x.id := by
    intro y hy e
    rw [List.map_append, List.map_cons, List.nodup_append] at hnodup
    exact hnodup.2.2 (List.mem_map.2 ⟨y, hy, rfl⟩) (by simp [e])
  have h2 : ∀ y ∈ post, y.id ≠ x.id := by
    intro y hy e
    rw [List.map_append, List.map_cons, List.nodup_append] at hnodup
    have := (List.nodup_cons.1 hnodup.2.1).1
    exact this (List.mem_map.2 ⟨y, hy, e⟩)
  rw [List.filter_append, List.filter_cons]
  simp only [bne_self_eq_false, Bool.false_eq_true, if_false]
  rw [List.filter_eq_self.2 (fun y hy => by simpa using h1 y hy),
    List.filter_eq_self.2 (fun y hy => by simpa using h2 y hy)]

/-- With unique ids, `deleteTask` on the id of a live task removes exactly that
task. -/
theorem deleteTask_of_nodup (s : State) (x : Task) (now : Int)
    (hnodup : (s.tasks.map (fun t => t.id)).Nodup) (hx : x ∈ s.tasks) :
    deleteTask s x.id now =
      showUndoBar
        (saveData
          { s with tasks := s.tasks.filter (fun t => t.id != x.id)
                   deletedTasks := s.deletedTasks ++ [x]
                   dailyTop3 := s.dailyTop3.filter (fun id => id != x.id) })
        now := by
  rcases findIndex_id_cases s.tasks x.id with ⟨-, hm⟩ | ⟨pre, y, post, hs, -, -, hy, hpre⟩
  · exact absurd rfl (hm x hx)
  · have hxy : y = x := by
      rw [hs] at hx hnodup
      have hinj := List.inj_on_of_nodup_map hnodup
      exact hinj (by simp) hx hy
    subst hxy
    rw [deleteTask_hit s y.id now pre post y hs rfl hpre]
    have hf := filter_id_split pre post y (hs ▸ hnodup)
    rw [← hs] at hf
    rw [hf]

/-- C4. In a state whose task ids are pairwise distinct, for an id that is both
live and pinned, one call of `deleteTask` leaves no task with that id in the
collection and no such id in the pin set; the removed record is appended to the
undo buffer as its last entry; the collection is the old one without that task
and the pin set the old one without that id, both in their original order, and
the pin set has become shorter. -/
theorem delete_pinned_task (s : State) (x : Task) (now : Int)
    (hnodup : (s.tasks.map (fun t => t.id)).Nodup)
    (hlive : x ∈ s.tasks) (hpinned : x.id ∈ s.dailyTop3) :
    (∀ t ∈ (deleteTask s x.id now).tasks, t.id ≠ x.id) ∧
    x.id ∉ (deleteTask s x.id now).dailyTop3 ∧
    (deleteTask s x.id now).deletedTasks = s.deletedTasks ++ [x] ∧
    (deleteTask s x.id now).deletedTasks.getLast? = some x ∧
    (deleteTask s x.id now).tasks = s.tasks.filter (fun t => t.id != x.id) ∧
    (deleteTask s x.id now).dailyTop3 = s.dailyTop3.filter (fun id => id != x.id) ∧
    (deleteTask s x.id now).dailyTop3.length < s.dailyTop3.length := by
  rw [deleteTask_of_nodup s x now hnodup hlive]
  refine ⟨?_, ?_, rfl, ?_, rfl, rfl, ?_⟩
  · intro t ht
    simp only [showUndoBar, saveData, List.mem_filter] at ht
    simpa using ht.2
  · simp [showUndoBar, saveData, List.mem_filter]
  · simp [showUndoBar, saveData]
  · simp only [showUndoBar, saveData]
    rw [List.length_filter_lt_length_iff_exists]
    exact ⟨x.id, hpinned, by simp⟩

/-- C4 at a concrete input: the middle one of three tasks, pinned second of
three pins, is deleted. -/
theorem delete_pinned_task_witness :
    (∀ t ∈ (deleteTask (demoState [demoTask "a" "A", demoTask "b" "B", demoTask "c" "C"]
        ["c", "b", "a"]) (demoTask "b" "B").id 0).tasks, t.id ≠ (demoTask "b" "B").id) ∧
    (demoTask "b" "B").id ∉ (deleteTask
      (demoState [demoTask "a" "A", demoTask "b" "B", demoTask "c" "C"] ["c", "b", "a"])
      (demoTask "b" "B").id 0).dailyTop3 ∧
    (deleteTask (demoState [demoTask "a" "A", demoTask "b" "B", demoTask "c" "C"]
      ["c", "b", "a"]) (demoTask "b" "B").id 0).deletedTasks =
      (demoState [demoTask "a" "A", demoTask "b" "B", demoTask "c" "C"]
        ["c", "b", "a"]).deletedTasks ++ [demoTask "b" "B"] ∧
    (deleteTask (demoState [demoTask "a" "A", demoTask "b" "B", demoTask "c" "C"]
      ["c", "b", "a"]) (demoTask "b" "B").id 0).deletedTasks.getLast? =
      some (demoTask "b" "B") ∧
    (deleteTask (demoState [demoTask "a" "A", demoTask "b" "B", demoTask "c" "C"]
      ["c", "b", "a"]) (demoTask "b" "B").id 0).tasks =
      (demoState [demoTask "a" "A", demoTask "b" "B", demoTask "c" "C"]
        ["c", "b", "a"]).tasks.filter (fun t => t.id != (demoTask "b" "B").id) ∧
    (deleteTask (demoState [demoTask "a" "A", demoTask "b" "B", demoTask "c" "C"]
      ["c", "b", "a"]) (demoTask "b" "B").id 0).dailyTop3 =
      (demoState [demoTask "a" "A", demoTask "b" "B", demoTask "c" "C"]
        ["c", "b", "a"]).dailyTop3.filter (fun id => id != (demoTask "b" "B").id) ∧
    (deleteTask (demoState [demoTask "a" "A", demoTask "b" "B", demoTask "c" "C"]
      ["c", "b", "a"]) (demoTask "b" "B").id 0).dailyTop3.length <
      (demoState [demoTask "a" "A", demoTask "b" "B", demoTask "c" "C"]
        ["c", "b", "a"]).dailyTop3.length :=
  delete_pinned_task (demoState [demoTask "a" "A", demoTask "b" "B", demoTask "c" "C"]
    ["c", "b", "a"]) (demoTask "b" "B") 0 (by decide) (by decide) (by decide)

/-! ## C5: pinned ids and live ids -/

theorem markReminded_id (host : Host) (now : Int) (t : Task) :
    (markReminded host now t).id = t.id := by
  unfold markReminded; split <;> rfl

theorem tick_ids (host : Host) (s : State) (now : Int) :
    (tick host s now).1.tasks.map (fun t => t.id) = s.tasks.map (fun t => t.id) := by
  rw [tick_tasks, List.map_map]
  apply List.map_congr_left
  intro t _
  exact markReminded_id host now t

theorem updateTask_ids (s : State) (taskId : String) (u : TaskUpdates) (hu : u.id = none) :
    (updateTask s taskId u).tasks.map (fun t => t.id) = s.tasks.map (fun t => t.id) := by
  rcases findIndex_id_cases s.tasks taskId with ⟨-, hm⟩ | ⟨pre, x, post, hs, -, -, hx, hpre⟩
  · rw [updateTask_miss s taskId u hm]
  · rw [updateTask_hit s taskId u pre post x hs hx hpre, hs]
    simp [saveData, mergeUpdates, hu]

theorem toggleTaskCompletion_ids (s : State) (taskId nowIso : String) :
    (toggleTaskCompletion s taskId nowIso).tasks.map (fun t => t.id) =
      s.tasks.map (fun t => t.id) := by
  rcases findIndex_id_cases s.tasks taskId with ⟨-, hm⟩ | ⟨pre, x, post, hs, -, -, hx, hpre⟩
  · rw [toggleTaskCompletion_miss s taskId nowIso hm]
  · rw [toggleTaskCompletion_hit s taskId nowIso pre post x hs hx hpre, stopRinging_tasks, hs]
    simp [saveData, flipCompletion]

theorem toggleSubtask_ids (s : State) (taskId : String) (i : Int) :
    (toggleSubtask s taskId i).tasks.map (fun t => t.id) = s.tasks.map (fun t => t.id) := by
  rcases findIndex_id_cases s.tasks taskId with ⟨-, hm⟩ | ⟨pre, x, post, hs, -, -, hx, hpre⟩
  · rw [toggleSubtask_miss s taskId i hm]
  · cases hi : subtaskAt x i with
    | none => rw [toggleSubtask_miss_index s taskId i pre post x hs hx hpre hi]
    | some st =>
      rw [toggleSubtask_hit s taskId i pre post x st hs hx hpre hi, hs]
      simp [saveData]

theorem pinsLive_iff (s : State) :
    PinsLive s ↔ ∀ id ∈ s.dailyTop3, id ∈ s.tasks.map (fun t => t.id) := by
  unfold PinsLive
  constructor
  · intro h id hid
    obtain ⟨t, ht, e⟩ := h id hid
    exact List.mem_map.2 ⟨t, ht, e⟩
  · intro h id hid
    obtain ⟨t, ht, e⟩ := List.mem_map.1 (h id hid)
    exact ⟨t, ht, e⟩

theorem pinsLive_of_ids (s s1 : State) (hp : s1.dailyTop3 = s.dailyTop3)
    (hi : s1.tasks.map (fun t => t.id) = s.tasks.map (fun t => t.id)) (h : PinsLive s) :
    PinsLive s1 := by
  rw [pinsLive_iff] at h ⊢
  rw [hp, hi]; exact h

theorem step_pinsLive (host : Host) (s : State) (op : Op)
    (hop : pinSafe s op) (h : PinsLive s) : PinsLive (step host s op) := by
  cases op with
  | createTask newId nowIso d =>
    intro id hid
    obtain ⟨t, ht, e⟩ := h id hid
    exact ⟨t, by simp [step, createTask, saveData, ht], e⟩
  | updateTask taskId u =>
    exact pinsLive_of_ids s _ (updateTask_dailyTop3 s taskId u)
      (updateTask_ids s taskId u hop) h
  | deleteTask taskId now =>
    simp only [step]
    rcases findIndex_id_cases s.tasks taskId with ⟨-, hm⟩ | ⟨pre, x, post, hs, -, -, hx, hpre⟩
    · rw [deleteTask_miss s taskId now hm]; exact h
    · rw [deleteTask_hit s taskId now pre post x hs hx hpre]
      intro id hid
      simp only [showUndoBar, saveData, List.mem_filter] at hid
      obtain ⟨t, ht, e⟩ := h id hid.1
      have hne : id ≠ taskId := by simpa using hid.2
      refine ⟨t, ?_, e⟩
      rw [hs] at ht
      simp only [showUndoBar, saveData, List.mem_append]
      rcases List.mem_append.1 ht with ht | ht
      · exact Or.inl ht
      · rcases List.mem_cons.1 ht with rfl | ht
        · exact absurd (e.symm.trans hx) hne
        · exact Or.inr ht
  | toggleTaskCompletion taskId nowIso =>
    exact pinsLive_of_ids s _ (toggleTaskCompletion_dailyTop3 s taskId nowIso)
      (toggleTaskCompletion_ids s taskId nowIso) h
  | toggleSubtask taskId i =>
    exact pinsLive_of_ids s _ (toggleSubtask_dailyTop3 s taskId i)
      (toggleSubtask_ids s taskId i) h
  | toggleDailyTop3 taskId =>
    simp only [step, toggleDailyTop3]
    split
    · split
      · intro id hid
        simp only [saveData, List.mem_append, List.mem_singleton] at hid
        rcases hid with hid | rfl
        · exact h id hid
        · exact hop
      · exact h
    · intro id hid
      simp only [saveData] at hid
      exact h id (List.mem_of_mem_eraseIdx hid)
  | undoDelete =>
    simp only [step, undoDelete]
    split
    · split
      · exact h
      · intro id hid
        obtain ⟨t, ht, e⟩ := h id hid
        exact ⟨t, by simp [saveData, ht], e⟩
    · exact h
  | importData file =>
    cases file with
    | noFile => exact h
    | unparsable => exact h
    | parsed v =>
      cases v with
      | nonArray text => exact h
      | array items => exact hop
  | tick now =>
    exact pinsLive_of_ids s _ (tickLoop_dailyTop3 host now s.tasks [] s [])
      (tick_ids host s now) h
  | advanceTo t =>
    intro id hid
    simp only [step] at hid ⊢
    rw [advanceTo_dailyTop3] at hid
    rw [advanceTo_tasks]
    exact h id hid

theorem run_pinsLive (host : Host) (ops : List Op) (s : State)
    (hops : pinSafeRun host s ops) (h : PinsLive s) : PinsLive (run host s ops) := by
  induction ops generalizing s with
  | nil => exact h
  | cons op ops ih => exact ih _ hops.2 (step_pinsLive host s op hops.1 h)

/-- C5, as amended. Starting from a state in which every pinned id is live
(such as the empty store), every pinned id is the id of a live task after every
sequence of `createTask`, `deleteTask`, `undoDelete`, `toggleDailyTop3` on ids
that are live when the call is made, `updateTask` calls whose fields do not
carry `id`, and imports whose array has a task for every pinned id (and of
completion and subtask toggles, ticks and undo expiries). -/
theorem pins_live_after_ops (host : Host) (s : State) (ops : List Op)
    (hstart : PinsLive s) (hops : pinSafeRun host s ops) :
    ∀ id ∈ (run host s ops).dailyTop3, ∃ t ∈ (run host s ops).tasks, t.id = id :=
  run_pinsLive host ops s hops hstart

/-- C5 as amended, at a concrete input: the empty store, a task created,
pinned, renamed and deleted, the delete undone, and a second task pinned. -/
theorem pins_live_after_ops_witness :
    PinsLive emptyState ∧
    ∀ id ∈ (run demoHost emptyState
        [.createTask "n1" "100" demoTaskData, .toggleDailyTop3 "n1",
         .updateTask "n1" onlyTitle, .createTask "n2" "200" demoTaskData,
         .toggleDailyTop3 "n2", .deleteTask "n1" 0, .undoDelete]).dailyTop3,
      ∃ t ∈ (run demoHost emptyState
        [.createTask "n1" "100" demoTaskData, .toggleDailyTop3 "n1",
         .updateTask "n1" onlyTitle, .createTask "n2" "200" demoTaskData,
         .toggleDailyTop3 "n2", .deleteTask "n1" 0, .undoDelete]).tasks, t.id = id :=
  ⟨by decide,
   pins_live_after_ops demoHost emptyState
    [.createTask "n1" "100" demoTaskData, .toggleDailyTop3 "n1",
     .updateTask "n1" onlyTitle, .createTask "n2" "200" demoTaskData,
     .toggleDailyTop3 "n2", .deleteTask "n1" 0, .undoDelete]
    (by decide)
    (by
      refine ⟨trivial, ?_, ?_, trivial, ?_, trivial, trivial, trivial⟩
      · exact ⟨_, List.mem_singleton.2 rfl, rfl⟩
      · rfl
      · exact ⟨_, List.mem_cons_of_mem _ (List.mem_singleton.2 rfl), rfl⟩)⟩

/-- C5 as stated fails. From the empty store: create a task, pin it, then run
an import of the empty array; or create a task, pin it, then `updateTask` it
with the fields `{ id: "z" }`. Every pin toggle is on a live id, and in both final states
the pinned id `"n1"` is the id of no live task. -/
theorem pins_live_counterexample :
    ¬ PinsLive (run demoHost emptyState
        [.createTask "n1" "100" demoTaskData, .toggleDailyTop3 "n1",
         .importData (.parsed (.array []))]) ∧
    ¬ PinsLive (run demoHost emptyState
        [.createTask "n1" "100" demoTaskData, .toggleDailyTop3 "n1",
         .updateTask "n1" onlyId]) := by
  decide

/-! ## C6: the deadline checker notifies once -/

theorem dueNow_iff (host : Host) (now : Int) (t : Task) :
    dueNow host now t = true ↔
      truthy t.deadline = true ∧ t.completed = false ∧ t.reminded = false ∧
        ∃ d, t.deadline.bind host.parseDate = some d ∧ d ≤ now := by
  unfold dueNow
  cases h : t.deadline.bind host.parseDate with
  | none => simp
  | some d =>
    simp only [Bool.and_eq_true, Bool.not_eq_true', decide_eq_true_eq, Option.some.injEq,
      exists_eq_left']
    tauto

theorem markReminded_reminded (host : Host) (now : Int) (t : Task)
    (h : t.reminded = true) : (markReminded host now t).reminded = true := by
  unfold markReminded; split
  · rfl
  · exact h

/-- A task that some run of `runTicks` notifies for did not have `reminded`
set. -/
theorem runTicks_notified_unreminded (host : Host) (times : List Int) (s : State) :
    ∀ u ∈ (runTicks host s times).2, u.reminded = false := by
  induction times generalizing s with
  | nil => intro u hu; simp [runTicks] at hu
  | cons now rest ih =>
    intro u hu
    simp only [runTicks, List.mem_append] at hu
    rcases hu with hu | hu
    · rw [tick_notified, List.mem_filter] at hu
      exact ((dueNow_iff host now u).1 hu.2).2.2.1
    · exact ih (tick host s now).1 u hu

/-- Once every live task with id `tid` is reminded, no run of `runTicks`
notifies for a task with that id. -/
theorem runTicks_skips_reminded (host : Host) (tid : String) (times : List Int) (s : State)
    (h : ∀ u ∈ s.tasks, u.id = tid → u.reminded = true) :
    ∀ u ∈ (runTicks host s times).2, u.id ≠ tid := by
  induction times generalizing s with
  | nil => intro u hu; simp [runTicks] at hu
  | cons now rest ih =>
    intro u hu
    simp only [runTicks, List.mem_append] at hu
    rcases hu with hu | hu
    · rw [tick_notified, List.mem_filter] at hu
      have hr := ((dueNow_iff host now u).1 hu.2).2.2.1
      intro e
      have := h u hu.1 e
      rw [hr] at this
      exact Bool.false_ne_true this
    · refine ih (tick host s now).1 ?_ u hu
      intro v hv e
      rw [tick_tasks] at hv
      obtain ⟨v0, hv0, rfl⟩ := List.mem_map.1 hv
      rw [markReminded_id] at e
      exact markReminded_reminded host now v0 (h v0 hv0 e)

/-- C6. Let `t` be a live task that is not completed, has a deadline that
parses to `d ≤ now`, and has `reminded` unset. One run of the deadline checker
at `now` replaces every task by its `markReminded`, which for `t` is `t` with
`reminded` true, and hands `t` to `notifyTaskDue` as often as `t` occurs in the
collection: exactly once when ids are unique. In every later run of the checker
(at any times, nothing else touching the store) no notification is issued for
the reminded record, nor, with unique ids, for any task with the id of `t`. And
in every state, a run of the checker only notifies for live tasks that are
open, not yet reminded, and have a deadline that parses to a time `≤` the time
of the run. -/
theorem deadline_tick_notifies_once (host : Host) (s : State) (now : Int) (t : Task)
    (d : Int) (ht : t ∈ s.tasks) (hopen : t.completed = false)
    (hdl : truthy t.deadline = true) (hparse : t.deadline.bind host.parseDate = some d)
    (hle : d ≤ now) (hrem : t.reminded = false) :
    (tick host s now).1.tasks = s.tasks.map (markReminded host now) ∧
    markReminded host now t = { t with reminded := true } ∧
    { t with reminded := true } ∈ (tick host s now).1.tasks ∧
    (tick host s now).2.count t = s.tasks.count t ∧
    ((s.tasks.map (fun u => u.id)).Nodup →
      ((tick host s now).2.filter (fun u => u.id == t.id)).length = 1) ∧
    (∀ times, ∀ u ∈ (runTicks host (tick host s now).1 times).2,
      u ≠ { t with reminded := true } ∧
      ((s.tasks.map (fun u => u.id)).Nodup → u.id ≠ t.id)) ∧
    (∀ (s2 : State) (now2 : Int), ∀ u ∈ (tick host s2 now2).2,
      u ∈ s2.tasks ∧ u.completed = false ∧ u.reminded = false ∧
      truthy u.deadline = true ∧
      ∃ d2, u.deadline.bind host.parseDate = some d2 ∧ d2 ≤ now2) := by
  have hdue : dueNow host now t = true :=
    (dueNow_iff host now t).2 ⟨hdl, hopen, hrem, d, hparse, hle⟩
  have hmark : markReminded host now t = { t with reminded := true } := by
    unfold markReminded; rw [if_pos hdue]
  have hinj : (s.tasks.map (fun u => u.id)).Nodup → ∀ u ∈ s.tasks, u.id = t.id → u = t :=
    fun hn u hu e => List.inj_on_of_nodup_map hn hu ht e
  refine ⟨tick_tasks host s now, hmark, ?_, ?_, ?_, ?_, ?_⟩
  · rw [tick_tasks, ← hmark]
    exact List.mem_map.2 ⟨t, ht, rfl⟩
  · rw [tick_notified]
    exact List.count_filter hdue
  · intro hn
    rw [tick_notified, List.filter_filter, ← List.countP_eq_length_filter]
    have h1 : List.countP (fun u => u.id == t.id && dueNow host now u) s.tasks =
        List.countP (fun u => u == t) s.tasks := by
      apply List.countP_congr
      intro u hu
      constructor
      · intro h
        simp only [Bool.and_eq_true, beq_iff_eq] at h
        simpa using hinj hn u hu h.1
      · intro h
        have : u = t := by simpa using h
        subst this
        simp [hdue]
    rw [h1]
    have hnd : s.tasks.Nodup := List.Nodup.of_map _ hn
    exact List.count_eq_one_of_mem hnd ht
  · intro times u hu
    constructor
    · intro e
      have := runTicks_notified_unreminded host times (tick host s now).1 u hu
      rw [e] at this
      exact Bool.noConfusion this
    · intro hn
      refine runTicks_skips_reminded host t.id times (tick host s now).1 ?_ u hu
      intro v hv e
      rw [tick_tasks] at hv
      obtain ⟨v0, hv0, rfl⟩ := List.mem_map.1 hv
      rw [markReminded_id] at e
      rw [hinj hn v0 hv0 e, hmark]
  · intro s2 now2 u hu
    rw [tick_notified, List.mem_filter] at hu
    obtain ⟨h1, h2, h3, h4⟩ := (dueNow_iff host now2 u).1 hu.2
    exact ⟨hu.1, h2, h3, h1, h4⟩

/-- C6 at a concrete input: a store with one due task and one task without a
deadline, checked at time 150. -/
theorem deadline_tick_notifies_once_witness :
    (tick demoHost (demoState [demoTask "a" "A", dueTask] []) 150).1.tasks =
      [demoTask "a" "A", { dueTask with reminded := true }] ∧
    (tick demoHost (demoState [demoTask "a" "A", dueTask] []) 150).2 = [dueTask] ∧
    (runTicks demoHost (tick demoHost (demoState [demoTask "a" "A", dueTask] []) 150).1
      [210, 270]).2 = [] ∧
    ((tick demoHost (demoState [demoTask "a" "A", dueTask] []) 150).2.filter
      (fun u => u.id == dueTask.id)).length = 1 :=
  ⟨by decide, by decide, by decide,
    (deadline_tick_notifies_once demoHost (demoState [demoTask "a" "A", dueTask] []) 150
      dueTask 100 (by decide) rfl rfl rfl (by decide) rfl).2.2.2.2.1 (by decide)⟩

/-! ## C7: undo is last-in-first-out -/

/-- JS `undoDelete` on a buffer whose last entry is `x`. -/
theorem undoDelete_append (s : State) (l : List Task) (x : Task)
    (h : s.deletedTasks = l ++ [x]) :
    undoDelete s =
      { s with deletedTasks := l, tasks := s.tasks ++ [x],
               savedTasks := some (s.tasks ++ [x]), savedTop3 := some s.dailyTop3,
               undoBarVisible := false } := by
  unfold undoDelete
  have hlen : s.deletedTasks.length > 0 := by rw [h]; simp
  have hlast : s.deletedTasks.getLast? = some x := by rw [h]; simp
  have hdrop : s.deletedTasks.dropLast = l := by rw [h]; simp
  rw [if_pos hlen, hlast]
  simp only [saveData, hdrop]

theorem undoDelete_empty (s : State) (h : s.deletedTasks = []) : undoDelete s = s := by
  unfold undoDelete
  rw [if_neg (by rw [h]; simp)]

/-- Moving the clock to a time before every pending fire time changes
nothing. -/
theorem advanceTo_early (s : State) (t : Int) (h : ∀ f ∈ s.timeouts, t < f) :
    advanceTo s t = s := by
  unfold advanceTo
  have h1 : s.timeouts.filter (fun f => decide (f ≤ t)) = [] := by
    rw [List.filter_eq_nil_iff]
    intro f hf
    have := h f hf
    simp only [decide_eq_true_eq, not_le]; exact this
  have h2 : s.timeouts.filter (fun f => !decide (f ≤ t)) = s.timeouts := by
    rw [List.filter_eq_self]
    intro f hf
    have := h f hf
    simp only [Bool.not_eq_true', decide_eq_false_iff_not, not_le]; exact this
  simp only [h1, h2, List.foldl_nil]

/-- Two deletes in a row, with unique ids, on two live tasks. -/
theorem deleteTask_twice (s : State) (a b : Task) (t1 t2 : Int)
    (hnodup : (s.tasks.map (fun t => t.id)).Nodup) (ha : a ∈ s.tasks) (hb : b ∈ s.tasks)
    (hab : a.id ≠ b.id) :
    deleteTask (deleteTask s a.id t1) b.id t2 =
      { s with
        tasks := (s.tasks.filter (fun t => t.id != a.id)).filter (fun t => t.id != b.id)
        deletedTasks := s.deletedTasks ++ [a, b]
        dailyTop3 :=
          (s.dailyTop3.filter (fun id => id != a.id)).filter (fun id => id != b.id)
        savedTasks :=
          some ((s.tasks.filter (fun t => t.id != a.id)).filter (fun t => t.id != b.id))
        savedTop3 :=
          some ((s.dailyTop3.filter (fun id => id != a.id)).filter (fun id => id != b.id))
        undoBarVisible := true
        timeouts := s.timeouts ++ [t1 + 5000, t2 + 5000] } := by
  rw [deleteTask_of_nodup s a t1 hnodup ha]
  rw [deleteTask_of_nodup _ b t2]
  · simp [showUndoBar, saveData]
  · simp only [showUndoBar, saveData]
    exact List.Nodup.sublist (List.Sublist.map _ (List.filter_sublist _)) hnodup
  · simp only [showUndoBar, saveData, List.mem_filter]
    exact ⟨hb, by simpa using fun e => hab e.symm⟩

/-- C7. In a state with unique task ids and distinct live tasks `a` and `b`,
after `deleteTask(a.id)` and then `deleteTask(b.id)` with no expiry in between:
one `undoDelete` appends `b` to the live collection, where `a` still is not,
and leaves in the undo buffer its old entries followed by `a`, which is `[a]`
when the buffer was empty before the two deletes; a second `undoDelete` appends
`a` and leaves the buffer as it was before the deletes, empty if it was empty.
`undoDelete` on an empty buffer returns the state unchanged. -/
theorem undo_is_lifo (s : State) (a b : Task) (t1 t2 : Int)
    (hnodup : (s.tasks.map (fun t => t.id)).Nodup) (ha : a ∈ s.tasks) (hb : b ∈ s.tasks)
    (hab : a.id ≠ b.id) :
    (undoDelete (deleteTask (deleteTask s a.id t1) b.id t2)).tasks =
      (s.tasks.filter (fun t => t.id != a.id)).filter (fun t => t.id != b.id) ++ [b] ∧
    b ∈ (undoDelete (deleteTask (deleteTask s a.id t1) b.id t2)).tasks ∧
    a ∉ (undoDelete (deleteTask (deleteTask s a.id t1) b.id t2)).tasks ∧
    (undoDelete (deleteTask (deleteTask s a.id t1) b.id t2)).deletedTasks =
      s.deletedTasks ++ [a] ∧
    (s.deletedTasks = [] →
      (undoDelete (deleteTask (deleteTask s a.id t1) b.id t2)).deletedTasks = [a]) ∧
    (undoDelete (undoDelete (deleteTask (deleteTask s a.id t1) b.id t2))).tasks =
      (s.tasks.filter (fun t => t.id != a.id)).filter (fun t => t.id != b.id) ++ [b, a] ∧
    a ∈ (undoDelete (undoDelete (deleteTask (deleteTask s a.id t1) b.id t2))).tasks ∧
    (undoDelete (undoDelete (deleteTask (deleteTask s a.id t1) b.id t2))).deletedTasks =
      s.deletedTasks ∧
    (s.deletedTasks = [] →
      (undoDelete (undoDelete (deleteTask (deleteTask s a.id t1) b.id t2))).deletedTasks
        = []) ∧
    (∀ s0 : State, s0.deletedTasks = [] → undoDelete s0 = s0) := by
  have e1 : undoDelete (deleteTask (deleteTask s a.id t1) b.id t2) = _ :=
    undoDelete_append _ (s.deletedTasks ++ [a]) b
      (by rw [deleteTask_twice s a b t1 t2 hnodup ha hb hab]; simp)
  have e2 : undoDelete (undoDelete (deleteTask (deleteTask s a.id t1) b.id t2)) = _ :=
    undoDelete_append _ s.deletedTasks a (by rw [e1])
  rw [e2, e1, deleteTask_twice s a b t1 t2 hnodup ha hb hab]
  refine ⟨rfl, by simp, ?_, rfl, fun h => by simp [h], by simp, by simp, rfl,
    fun h => h, undoDelete_empty⟩
  simp only [List.mem_append, List.mem_filter, List.mem_singleton, not_or]
  exact ⟨fun h => by simpa using h.1.2, fun e => hab (by rw [e])⟩

/-- C7 at a concrete input: three tasks, the first two deleted in turn. -/
theorem undo_is_lifo_witness :
    (undoDelete (deleteTask (deleteTask
      (demoState [demoTask "a" "A", demoTask "b" "B", demoTask "c" "C"] [])
      (demoTask "a" "A").id 0) (demoTask "b" "B").id 1000)).tasks =
      [demoTask "c" "C", demoTask "b" "B"] ∧
    (undoDelete (deleteTask (deleteTask
      (demoState [demoTask "a" "A", demoTask "b" "B", demoTask "c" "C"] [])
      (demoTask "a" "A").id 0) (demoTask "b" "B").id 1000)).deletedTasks =
      [demoTask "a" "A"] ∧
    (undoDelete (undoDelete (deleteTask (deleteTask
      (demoState [demoTask "a" "A", demoTask "b" "B", demoTask "c" "C"] [])
      (demoTask "a" "A").id 0) (demoTask "b" "B").id 1000))).tasks =
      [demoTask "c" "C", demoTask "b" "B", demoTask "a" "A"] ∧
    (undoDelete (undoDelete (deleteTask (deleteTask
      (demoState [demoTask "a" "A", demoTask "b" "B", demoTask "c" "C"] [])
      (demoTask "a" "A").id 0) (demoTask "b" "B").id 1000))).deletedTasks = [] :=
  have h := undo_is_lifo (demoState [demoTask "a" "A", demoTask "b" "B", demoTask "c" "C"] [])
    (demoTask "a" "A") (demoTask "b" "B") 0 1000 (by decide) (by decide) (by decide)
    (by decide)
  ⟨h.1, h.2.2.2.2.1 rfl, h.2.2.2.2.2.1, h.2.2.2.2.2.2.2.2.1 rfl⟩

/-! ## C8: the expiry timers of the undo bar -/

theorem advanceTo_deletedTasks (s : State) (t : Int) :
    (advanceTo s t).deletedTasks =
      if s.timeouts.filter (fun f => decide (f ≤ t)) = [] then s.deletedTasks else [] := by
  unfold advanceTo; simp only []; rw [foldl_expire_deletedTasks]

/-- With no timer pending beforehand and the second delete less than 5000 ms
after the first, the clock reaching `t2` fires nothing and the scenario is two
deletes in a row. -/
theorem deleteTwo_eq (s : State) (a b : Task) (t1 t2 : Int)
    (hnodup : (s.tasks.map (fun t => t.id)).Nodup) (ha : a ∈ s.tasks)
    (hnone : s.timeouts = []) (hwin : t2 - t1 < 5000) :
    deleteTwo s a b t1 t2 = deleteTask (deleteTask s a.id t1) b.id t2 := by
  unfold deleteTwo
  rw [advanceTo_early]
  intro f hf
  rw [deleteTask_of_nodup s a t1 hnodup ha] at hf
  simp only [showUndoBar, saveData, hnone, List.nil_append, List.mem_singleton] at hf
  omega

/-- C8, as amended. `showUndoBar` schedules a new 5000 ms timeout at every
delete and cancels none. In a state with unique task ids and no timeout
pending, after deletes of the live tasks `a` at `t1` and `b` at `t2`, with
`t1 < t2 < t1 + 5000`, two timeouts are pending, with fire times `t1 + 5000`
and `t2 + 5000`. At every time in `[t2, t1 + 5000)` the record `b` is the last
entry of the undo buffer and `undoDelete` puts it back in the collection; at
every time from `t1 + 5000` on the undo buffer is empty and `undoDelete` changes
nothing. -/
theorem undo_timers_stack (s : State) (a b : Task) (t1 t2 : Int)
    (hnodup : (s.tasks.map (fun t => t.id)).Nodup) (ha : a ∈ s.tasks) (hb : b ∈ s.tasks)
    (hab : a.id ≠ b.id) (hnone : s.timeouts = []) (h12 : t1 < t2)
    (hwin : t2 - t1 < 5000) :
    (deleteTwo s a b t1 t2).timeouts = [t1 + 5000, t2 + 5000] ∧
    (∀ t, t2 ≤ t → t < t1 + 5000 →
      (advanceTo (deleteTwo s a b t1 t2) t).deletedTasks = s.deletedTasks ++ [a, b] ∧
      (advanceTo (deleteTwo s a b t1 t2) t).deletedTasks.getLast? = some b ∧
      b ∈ (undoDelete (advanceTo (deleteTwo s a b t1 t2) t)).tasks) ∧
    (∀ t, t1 + 5000 ≤ t →
      (advanceTo (deleteTwo s a b t1 t2) t).deletedTasks = [] ∧
      undoDelete (advanceTo (deleteTwo s a b t1 t2) t) =
        advanceTo (deleteTwo s a b t1 t2) t) := by
  have hd : deleteTwo s a b t1 t2 = _ :=
    (deleteTwo_eq s a b t1 t2 hnodup ha hnone hwin).trans
      (deleteTask_twice s a b t1 t2 hnodup ha hb hab)
  have htimeouts : (deleteTwo s a b t1 t2).timeouts = [t1 + 5000, t2 + 5000] := by
    rw [hd]; simp [hnone]
  have hbuf : (deleteTwo s a b t1 t2).deletedTasks = s.deletedTasks ++ [a, b] := by
    rw [hd]
  refine ⟨htimeouts, ?_, ?_⟩
  · intro t _ ht
    have hearly : advanceTo (deleteTwo s a b t1 t2) t = deleteTwo s a b t1 t2 := by
      apply advanceTo_early
      intro f hf
      rw [htimeouts] at hf
      simp only [List.mem_cons, List.mem_singleton, List.not_mem_nil, or_false] at hf
      rcases hf with rfl | rfl <;> omega
    rw [hearly]
    refine ⟨hbuf, by rw [hbuf]; simp, ?_⟩
    rw [undoDelete_append _ (s.deletedTasks ++ [a]) b (by rw [hbuf]; simp)]
    simp
  · intro t ht
    have hempty : (advanceTo (deleteTwo s a b t1 t2) t).deletedTasks = [] := by
      rw [advanceTo_deletedTasks, htimeouts, if_neg]
      intro h
      rw [List.filter_eq_nil_iff] at h
      exact h (t1 + 5000) (by simp) (by simpa using ht)
    exact ⟨hempty, undoDelete_empty _ hempty⟩

/-- C8 as amended, at a concrete input: deletes at times 0 and 1000, looked at
at times 4999 and 5000. -/
theorem undo_timers_stack_witness :
    (deleteTwo (demoState [demoTask "a" "A", demoTask "b" "B"] [])
      (demoTask "a" "A") (demoTask "b" "B") 0 1000).timeouts = [0 + 5000, 1000 + 5000] ∧
    demoTask "b" "B" ∈ (undoDelete (advanceTo
      (deleteTwo (demoState [demoTask "a" "A", demoTask "b" "B"] [])
        (demoTask "a" "A") (demoTask "b" "B") 0 1000) 4999)).tasks ∧
    (advanceTo (deleteTwo (demoState [demoTask "a" "A", demoTask "b" "B"] [])
      (demoTask "a" "A") (demoTask "b" "B") 0 1000) 5000).deletedTasks = [] :=
  have h := undo_timers_stack (demoState [demoTask "a" "A", demoTask "b" "B"] [])
    (demoTask "a" "A") (demoTask "b" "B") 0 1000 (by decide) (by decide) (by decide)
    (by decide) rfl (by decide) (by decide)
  ⟨h.1, (h.2.1 4999 (by decide) (by decide)).2.2, (h.2.2 5000 (by decide)).1⟩

/-- C8 as stated fails. After deletes of `a` at time 0 and of `b` at time
1000, two expiry timeouts are pending at once; and at time 5000, which is less
than 5 s after the second delete, the undo buffer is empty and `undoDelete`
does not bring `b` back. -/
theorem undo_timer_counterexample :
    (deleteTwo (demoState [demoTask "a" "A", demoTask "b" "B"] [])
      (demoTask "a" "A") (demoTask "b" "B") 0 1000).timeouts.length = 2 ∧
    (1000 : Int) ≤ 5000 ∧ (5000 : Int) < 1000 + 5000 ∧
    demoTask "b" "B" ∉ (advanceTo
      (deleteTwo (demoState [demoTask "a" "A", demoTask "b" "B"] [])
        (demoTask "a" "A") (demoTask "b" "B") 0 1000) 5000).deletedTasks ∧
    demoTask "b" "B" ∉ (undoDelete (advanceTo
      (deleteTwo (demoState [demoTask "a" "A", demoTask "b" "B"] [])
        (demoTask "a" "A") (demoTask "b" "B") 0 1000) 5000)).tasks := by
  decide

/-! ## C9: import is all-or-nothing -/

/-- On arrays of complete task records that render without an exception,
`importDataRaw` is `importData`. -/
theorem importDataRaw_typed (renderThrows : RawStore → Bool) (s : State) (file : ImportFile)
    (hrender : ∀ items : List Task, renderThrows
      (saveDataRaw { rawStore s with tasks := items.map JsonItem.record }) = false) :
    (importDataRaw renderThrows (rawStore s) (rawFile file) =
      (rawStore (importData s file).1, (importData s file).2)) := by
  cases file with
  | noFile => rfl
  | unparsable => rfl
  | parsed v =>
    cases v with
    | nonArray text => rfl
    | array items =>
      have h := hrender items
      simp only [rawFile, importDataRaw]
      rw [if_neg (by rw [h]; simp)]
      rfl

/-- The file `[{"id":"x","title":"No subtasks"}]` on an empty store: the item
has no `subtasks`, `renderTasks` throws on it, and the callback has by then
replaced and saved the collection; the alert is the parse alert. -/
theorem importDataRaw_unrenderable_item :
    (importDataRaw throwsOnIncomplete (rawStore emptyState)
      (.parsed (.array [.other "id x, title No subtasks"])) =
      ({ rawStore emptyState with
          tasks := [.other "id x, title No subtasks"]
          savedTasks := some [.other "id x, title No subtasks"]
          savedTop3 := some [] },
        some importParseAlert)) := by
  decide

/-- C9. For every store state `s`, whatever the items of the collection and
of the file are and whether or not rendering the new collection throws: a file
that does not parse, and a file that parses to a value that is not an array,
leave the whole state (task collection, pin set, undo buffer, both persisted
blobs) as it is and raise an error alert, which is not the success alert; a file
that parses to an array makes the task collection exactly that array, writes
the same array to the persisted task blob and the pin set to the persisted pin
blob, and keeps the pin set and the undo buffer. So every file leaves the state
either as it was or with the collection replaced and persisted as a whole. For
an array the alert is the success alert when rendering returns and the parse
alert when rendering throws. -/
theorem import_all_or_nothing (renderThrows : RawStore → Bool) (s : RawStore) :
    (importDataRaw renderThrows s .unparsable = (s, some importParseAlert)) ∧
    (∀ text,
      (importDataRaw renderThrows s (.parsed (.nonArray text))) =
        (s, some importShapeAlert)) ∧
    (∀ items,
      (importDataRaw renderThrows s (.parsed (.array items))).1.tasks = items ∧
      (importDataRaw renderThrows s (.parsed (.array items))).1.savedTasks = some items ∧
      (importDataRaw renderThrows s (.parsed (.array items))).1.savedTop3 =
        some s.dailyTop3 ∧
      (importDataRaw renderThrows s (.parsed (.array items))).1.dailyTop3 = s.dailyTop3 ∧
      (importDataRaw renderThrows s (.parsed (.array items))).1.deletedTasks =
        s.deletedTasks ∧
      (importDataRaw renderThrows s (.parsed (.array items))).2 =
        some (if renderThrows (importDataRaw renderThrows s (.parsed (.array items))).1
          then importParseAlert else importOkAlert)) ∧
    (∀ file, (importDataRaw renderThrows s file).1 = s ∨
      ∃ items, file = .parsed (.array items) ∧
        (importDataRaw renderThrows s file).1.tasks = items ∧
        (importDataRaw renderThrows s file).1.savedTasks = some items) ∧
    (importParseAlert ≠ importOkAlert ∧ importShapeAlert ≠ importOkAlert) := by
  have harr : ∀ items,
      (importDataRaw renderThrows s (.parsed (.array items))).1 =
        saveDataRaw { s with tasks := items } := by
    intro items
    simp only [importDataRaw]
    split <;> rfl
  refine ⟨rfl, fun _ => rfl, ?_, ?_, by decide, by decide⟩
  · intro items
    refine ⟨by rw [harr]; rfl, by rw [harr]; rfl, by rw [harr]; rfl, by rw [harr]; rfl,
      by rw [harr]; rfl, ?_⟩
    rw [harr]
    simp only [importDataRaw]
    split <;> simp_all
  · intro file
    cases file with
    | noFile => exact Or.inl rfl
    | unparsable => exact Or.inl rfl
    | parsed v =>
      cases v with
      | nonArray text => exact Or.inl rfl
      | array items =>
        refine Or.inr ⟨items, rfl, ?_, ?_⟩
        · rw [harr]; rfl
        · rw [harr]; rfl

/-! ## C10: the quick filters -/

theorem ite_filter {α : Type} (c : Bool) (p : α → Bool) (l : List α) :
    (if c = true then l.filter p else l) = l.filter (fun a => !c || p a) := by
  cases c <;> simp

/-- The filter chain of `getFilteredTasks` keeps the tasks that pass all five
axes, in their order. -/
theorem filterTasks_eq (host : Host) (tasks : List Task) (f : Filter) (now : Int) :
    filterTasks host tasks f now =
      tasks.filter (fun t => passesCategory f t && passesStatus f t && passesPriority f t
        && passesQuick host f now t && passesSearch host f t) := by
  unfold filterTasks
  simp only []
  rw [ite_filter (f.search != ""), ite_filter (truthy f.quick), ite_filter (f.priority != "all")]
  have hstatus : ∀ l : List Task,
      (if (f.status == "active") = true then l.filter (fun task => !task.completed)
        else if (f.status == "completed") = true then l.filter (fun task => task.completed)
        else l) = l.filter (passesStatus f) := by
    intro l
    unfold passesStatus
    by_cases h1 : (f.status == "active") = true
    · simp [h1]
    · by_cases h2 : (f.status == "completed") = true
      · simp [h1, h2]
      · simp [h1, h2]
  rw [hstatus, ite_filter (f.category != "all")]
  simp only [List.filter_filter]
  apply List.filter_congr
  intro t _
  unfold passesCategory passesPriority passesQuick passesSearch
  cases hc : (f.category == "all") <;> cases hp : (f.priority == "all") <;>
    cases hq : truthy f.quick <;> cases hs : (f.search == "") <;>
    simp [bne, hc, hp, hq, hs, Bool.and_comm, Bool.and_left_comm]

theorem mem_getFilteredTasks (host : Host) (tasks : List Task) (f : Filter)
    (currentSort : String) (now : Int) (t : Task) :
    t ∈ getFilteredTasks host tasks f currentSort now ↔
      t ∈ tasks ∧ passesCategory f t = true ∧ passesStatus f t = true ∧
        passesPriority f t = true ∧ passesQuick host f now t = true ∧
        passesSearch host f t = true := by
  unfold getFilteredTasks sortTasks
  rw [List.mem_insertionSort, filterTasks_eq, List.mem_filter]
  simp only [Bool.and_eq_true, and_assoc]

theorem quickMatch_overdue (host : Host) (now : Int) (t : Task) :
    quickMatch host "overdue" now t = true ↔ isOverdue host now t := by
  unfold quickMatch isOverdue
  simp only [if_true]
  cases hd : truthy t.deadline
  · simp
  · cases hp : t.deadline.bind host.parseDate with
    | none => simp
    | some d => simp; tauto

theorem quickMatch_has_deadline (host : Host) (q : String) (now : Int) (t : Task)
    (hq : q = "overdue" ∨ q = "due-today" ∨ q = "due-soon")
    (h : quickMatch host q now t = true) : truthy t.deadline = true := by
  cases hd : truthy t.deadline
  · rcases hq with rfl | rfl | rfl <;> simp [quickMatch, hd] at h
  · rfl

/-- C10. With quick filter `overdue`, for every task list, every setting of the
other axes, every sort key and every current time: a task is in the result of
`getFilteredTasks` exactly when it is in the result for the same filter with no
quick filter and it is not completed and has a deadline that parses to a time
strictly before `now`; the result holds as many copies of each task as the
tasks passing the other axes and that test do; no task in the result is
completed. And with any of the quick filters `overdue`, `due-today`, `due-soon`
every task in the result has a deadline (not null, not empty). -/
theorem overdue_quick_filter (host : Host) (tasks : List Task) (f : Filter)
    (currentSort : String) (now : Int) (hq : f.quick = some "overdue") :
    (∀ t, t ∈ getFilteredTasks host tasks f currentSort now ↔
      t ∈ getFilteredTasks host tasks { f with quick := none } currentSort now ∧
        isOverdue host now t) ∧
    (getFilteredTasks host tasks f currentSort now).Perm
      ((filterTasks host tasks { f with quick := none } now).filter
        (quickMatch host "overdue" now)) ∧
    (∀ t ∈ getFilteredTasks host tasks f currentSort now, t.completed = false) ∧
    (∀ (g : Filter) (q : String), (q = "overdue" ∨ q = "due-today" ∨ q = "due-soon") →
      g.quick = some q →
      ∀ t ∈ getFilteredTasks host tasks g currentSort now,
        truthy t.deadline = true ∧ t.deadline ≠ none) := by
  have hpq : ∀ t, passesQuick host f now t = quickMatch host "overdue" now t := by
    intro t; simp [passesQuick, hq, truthy]
  have hmem : ∀ t, t ∈ getFilteredTasks host tasks f currentSort now ↔
      t ∈ getFilteredTasks host tasks { f with quick := none } currentSort now ∧
        isOverdue host now t := by
    intro t
    rw [mem_getFilteredTasks, mem_getFilteredTasks, hpq, quickMatch_overdue]
    simp only [passesCategory, passesStatus, passesPriority, passesQuick, passesSearch,
      truthy]
    tauto
  refine ⟨hmem, ?_, ?_, ?_⟩
  · unfold getFilteredTasks sortTasks
    refine (List.perm_insertionSort _ _).trans ?_
    rw [filterTasks_eq, filterTasks_eq, List.filter_filter]
    apply List.Perm.of_eq
    apply List.filter_congr
    intro t _
    rw [hpq]
    simp only [passesCategory, passesStatus, passesPriority, passesQuick, passesSearch,
      truthy]
    cases quickMatch host "overdue" now t <;> simp
  · intro t ht
    exact ((hmem t).1 ht).2.2.1
  · intro g q hqs hg t ht
    rw [mem_getFilteredTasks] at ht
    have hquick := ht.2.2.2.2.1
    have hne : q ≠ "" := by rcases hqs with rfl | rfl | rfl <;> decide
    have htr : truthy (some q) = true := by simp [truthy, hne]
    simp only [passesQuick, hg, htr, if_true, Option.getD_some] at hquick
    have hdl := quickMatch_has_deadline host q now t hqs hquick
    refine ⟨hdl, fun hn => ?_⟩
    rw [hn] at hdl
    simp [truthy] at hdl

/-- C10 at a concrete input: an open task past its deadline, a completed task
past the same deadline and a task without a deadline, filtered at time 150. -/
theorem overdue_quick_filter_witness :
    getFilteredTasks demoHost [dueTask, doneLateTask, demoTask "a" "A"] overdueFilter
      "created" 150 = [dueTask] ∧
    ∀ t ∈ getFilteredTasks demoHost [dueTask, doneLateTask, demoTask "a" "A"] overdueFilter
      "created" 150, t.completed = false :=
  ⟨by decide,
    (overdue_quick_filter demoHost [dueTask, doneLateTask, demoTask "a" "A"] overdueFilter
      "created" 150 rfl).2.2.1⟩

/-! ## C11: the default sort, newest first -/

theorem orderedInsert_congr {α : Type} (r q : α → α → Prop) [DecidableRel r] [DecidableRel q]
    (a : α) (l : List α) (h : ∀ b ∈ l, (r a b ↔ q a b)) :
    l.orderedInsert r a = l.orderedInsert q a := by
  induction l with
  | nil => rfl
  | cons b l ih =>
    have hb := h b (by simp)
    have ih1 := ih (fun c hc => h c (by simp [hc]))
    by_cases hr : r a b
    · simp [List.orderedInsert, hr, hb.1 hr]
    · have hq : ¬ q a b := fun hq => hr (hb.2 hq)
      simp [List.orderedInsert, hr, hq, ih1]

/-- Insertion sort only looks at the relation between elements of the list. -/
theorem insertionSort_congr {α : Type} (r q : α → α → Prop) [DecidableRel r] [DecidableRel q]
    (l : List α) (h : ∀ a ∈ l, ∀ b ∈ l, (r a b ↔ q a b)) :
    l.insertionSort r = l.insertionSort q := by
  induction l with
  | nil => rfl
  | cons a l ih =>
    have ih1 := ih (fun x hx y hy => h x (by simp [hx]) y (by simp [hy]))
    simp only [List.insertionSort]
    rw [ih1]
    apply orderedInsert_congr
    intro b hb
    exact h a (by simp) b (by simp [(List.mem_insertionSort q).1 hb])

theorem compareTasks_created (host : Host) (currentSort : String) (a b : Task)
    (hsort : currentSort ≠ "priority" ∧ currentSort ≠ "deadline" ∧ currentSort ≠ "title")
    (ha : ∃ c, host.parseDate a.createdAt = some c)
    (hb : ∃ c, host.parseDate b.createdAt = some c) :
    compareTasks host currentSort a b ≤ 0 ↔ createdKey host b ≤ createdKey host a := by
  obtain ⟨ca, hca⟩ := ha
  obtain ⟨cb, hcb⟩ := hb
  unfold compareTasks createdKey
  rw [if_neg hsort.1, if_neg hsort.2.1, if_neg hsort.2.2, hca, hcb]
  simp [subOrZero]

theorem sortTasks_created_eq (host : Host) (currentSort : String) (tasks : List Task)
    (hsort : currentSort ≠ "priority" ∧ currentSort ≠ "deadline" ∧ currentSort ≠ "title")
    (hvalid : ∀ t ∈ tasks, ∃ c, host.parseDate t.createdAt = some c) :
    sortTasks host currentSort tasks =
      tasks.insertionSort (fun a b => createdKey host b ≤ createdKey host a) := by
  unfold sortTasks
  apply insertionSort_congr
  intro a ha b hb
  exact compareTasks_created host currentSort a b hsort (hvalid a ha) (hvalid b hb)

theorem sortTasks_created_sorted (host : Host) (currentSort : String) (tasks : List Task)
    (hsort : currentSort ≠ "priority" ∧ currentSort ≠ "deadline" ∧ currentSort ≠ "title")
    (hvalid : ∀ t ∈ tasks, ∃ c, host.parseDate t.createdAt = some c) :
    (sortTasks host currentSort tasks).Pairwise
      (fun a b => createdKey host b ≤ createdKey host a) := by
  rw [sortTasks_created_eq host currentSort tasks hsort hvalid]
  haveI : IsTotal Task (fun a b => createdKey host b ≤ createdKey host a) :=
    ⟨fun a b => le_total _ _⟩
  haveI : IsTrans Task (fun a b => createdKey host b ≤ createdKey host a) :=
    ⟨fun a b c hab hbc => le_trans hbc hab⟩
  exact List.sorted_insertionSort _ tasks

/-- C11. With `currentSort` equal to `created` or to any key other than
`priority`, `deadline` and `title`, for every task list whose `createdAt`
strings are valid dates: `sortTasks` returns a permutation of its input; in the
result every task is created no earlier than the tasks after it; two tasks with
equal creation time that stand in the input as `a` before `b` stand in the
result as `a` before `b`; and three tasks created at `T1 < T2 < T3`, in
whatever input order, come out as `[T3, T2, T1]`. -/
theorem sort_created_newest_first (host : Host) (currentSort : String) (tasks : List Task)
    (hsort : currentSort ≠ "priority" ∧ currentSort ≠ "deadline" ∧ currentSort ≠ "title")
    (hvalid : ∀ t ∈ tasks, ∃ c, host.parseDate t.createdAt = some c) :
    (sortTasks host currentSort tasks).Perm tasks ∧
    (sortTasks host currentSort tasks).Pairwise
      (fun a b => createdKey host b ≤ createdKey host a) ∧
    (∀ a b, List.Sublist [a, b] tasks → createdKey host a = createdKey host b →
      List.Sublist [a, b] (sortTasks host currentSort tasks)) ∧
    (∀ x1 x2 x3, tasks.Perm [x1, x2, x3] →
      createdKey host x1 < createdKey host x2 → createdKey host x2 < createdKey host x3 →
      sortTasks host currentSort tasks = [x3, x2, x1]) := by
  have hperm : (sortTasks host currentSort tasks).Perm tasks := List.perm_insertionSort _ _
  have hsorted := sortTasks_created_sorted host currentSort tasks hsort hvalid
  refine ⟨hperm, hsorted, ?_, ?_⟩
  · intro a b hab hk
    rw [sortTasks_created_eq host currentSort tasks hsort hvalid]
    exact List.pair_sublist_insertionSort (le_of_eq hk.symm) hab
  · intro x1 x2 x3 hp h12 h23
    have hp3 : (sortTasks host currentSort tasks).Perm [x1, x2, x3] := hperm.trans hp
    have hlen : (sortTasks host currentSort tasks).length = 3 := by
      rw [hp3.length_eq]; rfl
    rcases hout : sortTasks host currentSort tasks with
      _ | ⟨y3, _ | ⟨y2, _ | ⟨y1, _ | ⟨y0, rest⟩⟩⟩⟩
    · rw [hout] at hlen; simp at hlen
    · rw [hout] at hlen; simp at hlen
    · rw [hout] at hlen; simp at hlen
    · rw [hout] at hp3 hsorted
      simp only [List.pairwise_cons, List.mem_cons, List.mem_singleton, List.not_mem_nil,
        or_false, forall_eq_or_imp, forall_eq] at hsorted
      have m3 : y3 ∈ [x1, x2, x3] := hp3.subset (by simp)
      have m2 : y2 ∈ [x1, x2, x3] := hp3.subset (by simp)
      have m1 : y1 ∈ [x1, x2, x3] := hp3.subset (by simp)
      have n1 : x1 ∈ [y3, y2, y1] := hp3.symm.subset (by simp)
      have n2 : x2 ∈ [y3, y2, y1] := hp3.symm.subset (by simp)
      have n3 : x3 ∈ [y3, y2, y1] := hp3.symm.subset (by simp)
      simp only [List.mem_cons, List.mem_singleton, List.not_mem_nil, or_false]
        at m1 m2 m3 n1 n2 n3
      obtain ⟨⟨s32, s31⟩, s21, -⟩ := hsorted
      have k : ∀ {u v : Task}, u = v → createdKey host u = createdKey host v :=
        fun h => congrArg (createdKey host) h
      have e3 : y3 = x3 := by
        rcases m3 with e | e | e
        · exfalso
          rcases n3 with f | f | f <;> have := k e <;> have := k f <;> omega
        · exfalso
          rcases n3 with f | f | f <;> have := k e <;> have := k f <;> omega
        · exact e
      have e1 : y1 = x1 := by
        rcases m1 with e | e | e
        · exact e
        · exfalso
          rcases n1 with f | f | f <;> have := k e <;> have := k f <;> omega
        · exfalso
          rcases n1 with f | f | f <;> have := k e <;> have := k f <;> omega
      have e2 : y2 = x2 := by
        rcases m2 with e | e | e
        · exfalso
          rcases n2 with f | f | f <;> have := k e <;> have := k f <;> have := k e1 <;>
            have := k e3 <;> omega
        · exact e
        · exfalso
          rcases n2 with f | f | f <;> have := k e <;> have := k f <;> have := k e1 <;>
            have := k e3 <;> omega
      rw [e1, e2, e3]
    · rw [hout] at hlen; simp at hlen

/-- C11 at a concrete input: three tasks created at 100, 200 and 300, listed
as 200, 100, 300, under the default sort. -/
theorem sort_created_newest_first_witness :
    ([createdAt200, createdAt100, createdAt300].Perm
      [createdAt100, createdAt200, createdAt300]) ∧
    sortTasks demoHost "created" [createdAt200, createdAt100, createdAt300] =
      [createdAt300, createdAt200, createdAt100] :=
  ⟨by decide,
    (sort_created_newest_first demoHost "created" [createdAt200, createdAt100, createdAt300]
      (by decide)
      (by
        intro t ht
        simp only [List.mem_cons, List.mem_singleton, List.not_mem_nil, or_false] at ht
        rcases ht with rfl | rfl | rfl <;> exact ⟨_, rfl⟩)).2.2.2 createdAt100 createdAt200 createdAt300 (by decide)
      (by decide) (by decide)⟩

/-! ## C12: sorting by deadline -/

theorem compareTasks_deadline_none_right (host : Host) (a b : Task)
    (hb : truthy b.deadline = false) : compareTasks host "deadline" a b ≤ 0 := by
  unfold compareTasks
  cases ha : truthy a.deadline <;> simp [ha, hb]

theorem compareTasks_deadline_none_left (host : Host) (a b : Task)
    (ha : truthy a.deadline = false) (hb : truthy b.deadline = true) :
    ¬ compareTasks host "deadline" a b ≤ 0 := by
  unfold compareTasks
  simp [ha, hb]

theorem compareTasks_deadline_both (host : Host) (a b : Task)
    (ha : truthy a.deadline = true) (hb : truthy b.deadline = true) :
    compareTasks host "deadline" a b =
      subOrZero (a.deadline.bind host.parseDate) (b.deadline.bind host.parseDate) := by
  unfold compareTasks
  simp [ha, hb]

/-- Inserting a task keeps the tasks with a deadline in front of the tasks
without one. -/
theorem orderedInsert_deadline_front (host : Host) (a : Task) (l : List Task)
    (h : l.Pairwise (fun x y => truthy y.deadline = true → truthy x.deadline = true)) :
    (l.orderedInsert (fun x y => compareTasks host "deadline" x y ≤ 0) a).Pairwise
      (fun x y => truthy y.deadline = true → truthy x.deadline = true) := by
  induction l with
  | nil => simp
  | cons b l ih =>
    obtain ⟨hb, hl⟩ := List.pairwise_cons.1 h
    by_cases hr : compareTasks host "deadline" a b ≤ 0
    · simp only [List.orderedInsert, hr, if_true]
      refine List.pairwise_cons.2 ⟨?_, h⟩
      intro y hy hyd
      cases ha : truthy a.deadline with
      | true => rfl
      | false =>
        exfalso
        have hbd : truthy b.deadline = false := by
          cases hbd : truthy b.deadline with
          | false => rfl
          | true => exact absurd hr (compareTasks_deadline_none_left host a b ha hbd)
        rcases List.mem_cons.1 hy with rfl | hy
        · rw [hbd] at hyd; exact Bool.false_ne_true hyd
        · have := hb y hy hyd
          rw [hbd] at this; exact Bool.false_ne_true this
    · simp only [List.orderedInsert, hr, if_false]
      have hbd : truthy b.deadline = true := by
        cases hbd : truthy b.deadline with
        | true => rfl
        | false => exact absurd (compareTasks_deadline_none_right host a b hbd) hr
      refine List.pairwise_cons.2 ⟨fun y _ _ => hbd, ih hl⟩

theorem sortTasks_deadline_front (host : Host) (tasks : List Task) :
    (sortTasks host "deadline" tasks).Pairwise
      (fun x y => truthy y.deadline = true → truthy x.deadline = true) := by
  unfold sortTasks
  induction tasks with
  | nil => simp
  | cons a l ih => exact orderedInsert_deadline_front host a _ ih

/-- A sublist of the input that is already in comparator order is a sublist
of the sorted list. -/
theorem sortTasks_sublist (host : Host) (currentSort : String) (tasks c : List Task)
    (hc : c.Pairwise (fun a b => compareTasks host currentSort a b ≤ 0))
    (hsub : List.Sublist c tasks) : List.Sublist c (sortTasks host currentSort tasks) :=
  List.sublist_insertionSort hc hsub

theorem sortTasks_deadline_none_stable (host : Host) (tasks : List Task) :
    (sortTasks host "deadline" tasks).filter (fun t => !truthy t.deadline) =
      tasks.filter (fun t => !truthy t.deadline) := by
  have hsub : List.Sublist (tasks.filter (fun t => !truthy t.deadline))
      (sortTasks host "deadline" tasks) := by
    apply sortTasks_sublist host "deadline" tasks _ _ (List.filter_sublist _)
    rw [List.pairwise_iff_forall_sublist]
    intro a b hab
    have hb : b ∈ tasks.filter (fun t => !truthy t.deadline) := hab.subset (by simp)
    have hbd : truthy b.deadline = false := by simpa using (List.mem_filter.1 hb).2
    exact compareTasks_deadline_none_right host a b hbd
  have hsub2 := hsub.filter (fun t => !truthy t.deadline)
  rw [List.filter_filter] at hsub2
  simp only [Bool.and_self] at hsub2
  have hlen : ((sortTasks host "deadline" tasks).filter (fun t => !truthy t.deadline)).length
      = (tasks.filter (fun t => !truthy t.deadline)).length :=
    ((List.perm_insertionSort _ tasks).filter _).length_eq
  exact (hsub2.eq_of_length hlen.symm).symm

theorem compareTasks_deadline_order (host : Host) (a b : Task)
    (ha : truthy a.deadline = true → ∃ d, a.deadline.bind host.parseDate = some d)
    (hb : truthy b.deadline = true → ∃ d, b.deadline.bind host.parseDate = some d) :
    compareTasks host "deadline" a b ≤ 0 ↔ deadlineOrder host a b := by
  unfold deadlineOrder
  cases hbd : truthy b.deadline with
  | false => simp [compareTasks_deadline_none_right host a b hbd]
  | true =>
    cases had : truthy a.deadline with
    | false => simp [compareTasks_deadline_none_left host a b had hbd]
    | true =>
      obtain ⟨x, hx⟩ := ha had
      obtain ⟨y, hy⟩ := hb hbd
      rw [compareTasks_deadline_both host a b had hbd]
      simp [deadlineKey, hx, hy, subOrZero]

theorem sortTasks_deadline_sorted (host : Host) (tasks : List Task)
    (hvalid : ∀ t ∈ tasks, truthy t.deadline = true →
      ∃ d, t.deadline.bind host.parseDate = some d) :
    (sortTasks host "deadline" tasks).Pairwise (deadlineOrder host) := by
  have heq : sortTasks host "deadline" tasks = tasks.insertionSort (deadlineOrder host) := by
    unfold sortTasks
    apply insertionSort_congr
    intro a ha b hb
    exact compareTasks_deadline_order host a b (hvalid a ha) (hvalid b hb)
  rw [heq]
  haveI : IsTotal Task (deadlineOrder host) := ⟨by
    intro a b
    unfold deadlineOrder
    cases truthy a.deadline <;> cases truthy b.deadline <;> simp
    exact le_total _ _⟩
  haveI : IsTrans Task (deadlineOrder host) := ⟨by
    intro a b c hab hbc
    unfold deadlineOrder at *
    rcases hbc with hc | ⟨hb1, hc1, hbc⟩
    · exact Or.inl hc
    · rcases hab with hb0 | ⟨ha1, -, hab⟩
      · rw [hb1] at hb0; exact absurd hb0 (by simp)
      · exact Or.inr ⟨ha1, hc1, le_trans hab hbc⟩⟩
  exact List.sorted_insertionSort _ tasks

/-- C12, as amended. With `currentSort` equal to `deadline`, for every task
list in which every deadline is a valid date: `sortTasks` returns a permutation
of its input; every task with a deadline stands before every task without one;
the tasks with a deadline are in ascending timestamp order; two tasks with a
deadline and equal timestamps that stand in the input as `a` before `b` stand in
the result as `a` before `b`; and the tasks without a deadline appear in their
input order. -/
theorem sort_by_deadline (host : Host) (tasks : List Task)
    (hvalid : ∀ t ∈ tasks, truthy t.deadline = true →
      ∃ d, t.deadline.bind host.parseDate = some d) :
    (sortTasks host "deadline" tasks).Perm tasks ∧
    (sortTasks host "deadline" tasks).Pairwise
      (fun x y => truthy y.deadline = true → truthy x.deadline = true) ∧
    (sortTasks host "deadline" tasks).Pairwise
      (fun x y => truthy x.deadline = true → truthy y.deadline = true →
        deadlineKey host x ≤ deadlineKey host y) ∧
    (∀ a b, List.Sublist [a, b] tasks → truthy a.deadline = true → truthy b.deadline = true →
      deadlineKey host a = deadlineKey host b →
      List.Sublist [a, b] (sortTasks host "deadline" tasks)) ∧
    (sortTasks host "deadline" tasks).filter (fun t => !truthy t.deadline) =
      tasks.filter (fun t => !truthy t.deadline) := by
  refine ⟨List.perm_insertionSort _ _, sortTasks_deadline_front host tasks, ?_, ?_,
    sortTasks_deadline_none_stable host tasks⟩
  · refine (sortTasks_deadline_sorted host tasks hvalid).imp ?_
    intro x y hxy hx hy
    rcases hxy with h | ⟨-, -, h⟩
    · rw [hy] at h; exact absurd h (by simp)
    · exact h
  · intro a b hab ha hb hk
    apply sortTasks_sublist host "deadline" tasks _ _ hab
    rw [List.pairwise_pair]
    have hma : a ∈ tasks := hab.subset (by simp)
    have hmb : b ∈ tasks := hab.subset (by simp)
    rw [compareTasks_deadline_order host a b (hvalid a hma) (hvalid b hmb)]
    exact Or.inr ⟨ha, hb, le_of_eq hk⟩

/-- C12 as amended, at a concrete input: deadlines 300, none, 100, none. -/
theorem sort_by_deadline_witness :
    sortTasks demoHost "deadline" [lateTask, demoTask "a" "A", earlyTask, demoTask "b" "B"] =
      [earlyTask, lateTask, demoTask "a" "A", demoTask "b" "B"] ∧
    (sortTasks demoHost "deadline"
      [lateTask, demoTask "a" "A", earlyTask, demoTask "b" "B"]).Pairwise
        (fun x y => truthy x.deadline = true → truthy y.deadline = true →
          deadlineKey demoHost x ≤ deadlineKey demoHost y) :=
  ⟨by decide,
    (sort_by_deadline demoHost
      [lateTask, demoTask "a" "A", earlyTask, demoTask "b" "B"]
      (by
        intro t ht hd
        simp only [List.mem_cons, List.mem_singleton, List.not_mem_nil, or_false] at ht
        rcases ht with rfl | rfl | rfl | rfl
        · exact ⟨300, rfl⟩
        · exact absurd hd (by decide)
        · exact ⟨100, rfl⟩
        · exact absurd hd (by decide))).2.2.1⟩

/-- C12 as stated fails. Take the list of a task due at 300, a task whose
deadline string is not a date, and a task due at 100. The comparator returns a
tie (`NaN`, read as `0`) for the first against the second and for the second
against the third, in both directions, so the list already is in comparator
order pair by pair and comes back unchanged from the sort with key `deadline`:
the task due at 300 stays before the task due at 100. -/
theorem sort_by_deadline_counterexample :
    compareTasks demoHost "deadline" lateTask badDateTask = 0 ∧
    compareTasks demoHost "deadline" badDateTask lateTask = 0 ∧
    compareTasks demoHost "deadline" badDateTask earlyTask = 0 ∧
    compareTasks demoHost "deadline" earlyTask badDateTask = 0 ∧
    sortTasks demoHost "deadline" [lateTask, badDateTask, earlyTask] =
      [lateTask, badDateTask, earlyTask] ∧
    lateTask.deadline.bind demoHost.parseDate = some 300 ∧
    earlyTask.deadline.bind demoHost.parseDate = some 100 ∧
    ¬ (sortTasks demoHost "deadline" [lateTask, badDateTask, earlyTask]).Pairwise
        (fun x y => ∀ dx dy, x.deadline.bind demoHost.parseDate = some dx →
          y.deadline.bind demoHost.parseDate = some dy → dx ≤ dy) := by
  refine ⟨by decide, by decide, by decide, by decide, by decide, rfl, rfl, ?_⟩
  intro h
  have e : sortTasks demoHost "deadline" [lateTask, badDateTask, earlyTask] =
      [lateTask, badDateTask, earlyTask] := by decide
  rw [e] at h
  have := (List.pairwise_cons.1 h).1 earlyTask (by simp) 300 100 rfl rfl
  exact absurd this (by decide)

/-! ## C13: ids stay unique -/

theorem deleteTask_tasks_sublist (s : State) (taskId : String) (now : Int) :
    List.Sublist (deleteTask s taskId now).tasks s.tasks := by
  rcases findIndex_id_cases s.tasks taskId with ⟨-, hm⟩ | ⟨pre, x, post, hs, -, -, hx, hpre⟩
  · rw [deleteTask_miss s taskId now hm]
  · rw [deleteTask_hit s taskId now pre post x hs hx hpre, hs]
    simp only [showUndoBar, saveData]
    exact List.Sublist.append (List.Sublist.refl pre) (List.sublist_cons_self x post)

theorem step_ids_fresh (host : Host) (s : State) (op : Op) (rest : List Op)
    (hop : idSafe op)
    (h : (s.tasks.map (fun t => t.id) ++ createdIds (op :: rest)).Nodup) :
    ((step host s op).tasks.map (fun t => t.id) ++ createdIds rest).Nodup := by
  cases op with
  | createTask newId nowIso d =>
    simpa [step, createTask, saveData, createdIds] using h
  | updateTask taskId u =>
    simp only [step, createdIds] at h ⊢
    rw [updateTask_ids s taskId u hop]; exact h
  | deleteTask taskId now =>
    simp only [step, createdIds] at h ⊢
    exact List.Nodup.sublist
      (List.Sublist.append ((deleteTask_tasks_sublist s taskId now).map _)
        (List.Sublist.refl _)) h
  | toggleTaskCompletion taskId nowIso =>
    simp only [step, createdIds] at h ⊢
    rw [toggleTaskCompletion_ids]; exact h
  | toggleSubtask taskId i =>
    simp only [step, createdIds] at h ⊢
    rw [toggleSubtask_ids]; exact h
  | toggleDailyTop3 taskId =>
    simp only [step, createdIds, toggleDailyTop3] at h ⊢
    split
    · split <;> exact h
    · exact h
  | undoDelete => exact absurd hop (by simp [idSafe])
  | importData file => exact absurd hop (by simp [idSafe])
  | tick now =>
    simp only [step, createdIds] at h ⊢
    rw [tick_ids]; exact h
  | advanceTo t =>
    simp only [step, createdIds] at h ⊢
    rw [advanceTo_tasks]; exact h

/-- C13, as amended. Starting from a state with pairwise distinct task ids
(such as the empty store), and with `generateId` returning ids that are
pairwise distinct and differ from the ids already in the store, the ids of the
live tasks are pairwise distinct after every sequence of `createTask`,
`deleteTask` and `updateTask` calls whose fields do not carry `id` (and of
completion, subtask and pin toggles, ticks and undo expiries). -/
theorem ids_stay_unique (host : Host) (s : State) (ops : List Op)
    (hops : ∀ op ∈ ops, idSafe op)
    (hfresh : (s.tasks.map (fun t => t.id) ++ createdIds ops).Nodup) :
    ((run host s ops).tasks.map (fun t => t.id)).Nodup := by
  induction ops generalizing s with
  | nil => simpa [run, createdIds] using hfresh
  | cons op ops ih =>
    exact ih (step host s op) (fun o ho => hops o (by simp [ho]))
      (step_ids_fresh host s op ops (hops op (by simp)) hfresh)

/-- C13 as amended, at a concrete input: the empty store, two tasks created,
the first renamed and deleted, a third created. -/
theorem ids_stay_unique_witness :
    (createdIds [.createTask "n1" "100" demoTaskData, .createTask "n2" "200" demoTaskData,
      .updateTask "n1" onlyTitle, .deleteTask "n1" 0,
      .createTask "n3" "300" demoTaskData]).Nodup ∧
    ((run demoHost emptyState
      [.createTask "n1" "100" demoTaskData, .createTask "n2" "200" demoTaskData,
       .updateTask "n1" onlyTitle, .deleteTask "n1" 0,
       .createTask "n3" "300" demoTaskData]).tasks.map (fun t => t.id)).Nodup :=
  ⟨by decide,
    ids_stay_unique demoHost emptyState
      [.createTask "n1" "100" demoTaskData, .createTask "n2" "200" demoTaskData,
       .updateTask "n1" onlyTitle, .deleteTask "n1" 0,
       .createTask "n3" "300" demoTaskData]
      (by
        intro op hop
        simp only [List.mem_cons, List.mem_singleton, List.not_mem_nil, or_false] at hop
        rcases hop with rfl | rfl | rfl | rfl | rfl <;> simp [idSafe, onlyTitle, noUpdates])
      (by decide)⟩

/-- C13 as stated fails. From the empty store, with `generateId` returning the
distinct ids `"n1"` and `"n2"`: two tasks are created and the second is updated
with the fields `{ id: "n1" }`; both live tasks then carry the id `"n1"`. -/
theorem ids_stay_unique_counterexample :
    (createdIds [.createTask "n1" "100" demoTaskData, .createTask "n2" "200" demoTaskData,
      .updateTask "n2" renameToFirst]).Nodup ∧
    (run demoHost emptyState
      [.createTask "n1" "100" demoTaskData, .createTask "n2" "200" demoTaskData,
       .updateTask "n2" renameToFirst]).tasks.map (fun t => t.id) = ["n1", "n1"] ∧
    ¬ ((run demoHost emptyState
      [.createTask "n1" "100" demoTaskData, .createTask "n2" "200" demoTaskData,
       .updateTask "n2" renameToFirst]).tasks.map (fun t => t.id)).Nodup := by
  decide

/-! ## C14: the four filter axes -/

theorem passes_iff_specMatches (host : Host) (f : Filter) (now : Int) (t : Task)
    (hquick : truthy f.quick = false)
    (hstatus : f.status = "all" ∨ f.status = "active" ∨ f.status = "completed") :
    (passesCategory f t = true ∧ passesStatus f t = true ∧ passesPriority f t = true ∧
      passesQuick host f now t = true ∧ passesSearch host f t = true) ↔
    specMatches host f t := by
  have hq : passesQuick host f now t = true := by simp [passesQuick, hquick]
  have hc : passesCategory f t = true ↔ (f.category = "all" ∨ t.category = f.category) := by
    simp [passesCategory]
  have hp : passesPriority f t = true ↔ (f.priority = "all" ∨ t.priority = f.priority) := by
    simp [passesPriority]
  have hs : passesStatus f t = true ↔
      (f.status = "all" ∨ (f.status = "active" ∧ t.completed = false) ∨
        (f.status = "completed" ∧ t.completed = true)) := by
    unfold passesStatus
    rcases hstatus with h | h | h <;> simp [h]
  have hsearch : passesSearch host f t = true ↔
      (f.search = "" ∨
        (host.toLowerCase f.search).toList <:+: (host.toLowerCase t.title).toList ∨
        (host.toLowerCase f.search).toList <:+: (host.toLowerCase t.description).toList) := by
    unfold passesSearch includes
    by_cases h : f.search = ""
    · simp [h]
    · simp [h]
  unfold specMatches
  rw [hc, hs, hp, hsearch]
  simp only [hq, true_and]

/-- C14. With no quick filter active and the status axis set to one of its
three values, for every task list, every category, priority and search string,
every sort key and every time: a task is in the result of `getFilteredTasks`
exactly when it is in the list and passes the four axes of `specMatches` at
once; the result holds as many copies of such a task as the list does, and no
task twice when the list holds no task twice. -/
theorem filter_axes_conjunction (host : Host) (tasks : List Task) (f : Filter)
    (currentSort : String) (now : Int) (hquick : truthy f.quick = false)
    (hstatus : f.status = "all" ∨ f.status = "active" ∨ f.status = "completed") :
    (∀ t, t ∈ getFilteredTasks host tasks f currentSort now ↔
      t ∈ tasks ∧ specMatches host f t) ∧
    (∀ t, specMatches host f t →
      (getFilteredTasks host tasks f currentSort now).count t = tasks.count t) ∧
    (tasks.Nodup → (getFilteredTasks host tasks f currentSort now).Nodup) := by
  have hperm : (getFilteredTasks host tasks f currentSort now).Perm
      (filterTasks host tasks f now) := List.perm_insertionSort _ _
  refine ⟨?_, ?_, ?_⟩
  · intro t
    rw [mem_getFilteredTasks, passes_iff_specMatches host f now t hquick hstatus]
  · intro t ht
    rw [hperm.count_eq, filterTasks_eq]
    apply List.count_filter
    have := (passes_iff_specMatches host f now t hquick hstatus).2 ht
    simp only [Bool.and_eq_true]
    tauto
  · intro hn
    rw [hperm.nodup_iff, filterTasks_eq]
    exact hn.filter _

/-- C14 at a concrete input: three tasks, of which one is of another category
and one does not contain the search string. -/
theorem filter_axes_conjunction_witness :
    getFilteredTasks demoHost
      [planTask, { planTask with id := "q", category := "home" }, demoTask "a" "A"]
      workFilter "created" 0 = [planTask] ∧
    (getFilteredTasks demoHost
      [planTask, { planTask with id := "q", category := "home" }, demoTask "a" "A"]
      workFilter "created" 0).Nodup :=
  ⟨by decide,
    (filter_axes_conjunction demoHost
      [planTask, { planTask with id := "q", category := "home" }, demoTask "a" "A"]
      workFilter "created" 0 rfl (by decide)).2.2 (by decide)⟩

/-! ## C15: lookup misses change nothing -/

theorem subtaskAt_out_of_range (t : Task) (j : Int)
    (hj : j < 0 ∨ (t.subtasks.length : Int) ≤ j) : subtaskAt t j = none := by
  unfold subtaskAt
  rcases hj with hj | hj
  · rw [if_neg (by omega)]
  · rw [if_pos (by omega)]
    apply List.getElem?_eq_none
    omega

/-- C15. The store operations are total functions that return a state, so no
call raises an error. For every state and every id that no live task has,
`updateTask`, `deleteTask` and `toggleSubtask` return the state they were given:
task collection, pin set, undo buffer and every other field are unchanged. The
same holds for `toggleSubtask` on the id of a live task `x` with an index below
`0` or not below the number of subtasks of `x`. -/
theorem lookup_miss_is_noop (s : State) (taskId : String) (u : TaskUpdates) (now : Int)
    (i : Int) (hmiss : ∀ t ∈ s.tasks, t.id ≠ taskId) :
    updateTask s taskId u = s ∧ deleteTask s taskId now = s ∧
    toggleSubtask s taskId i = s ∧
    (∀ (pre post : List Task) (x : Task) (j : Int), s.tasks = pre ++ x :: post →
      (∀ y ∈ pre, y.id ≠ x.id) → (j < 0 ∨ (x.subtasks.length : Int) ≤ j) →
      toggleSubtask s x.id j = s) := by
  refine ⟨updateTask_miss s taskId u hmiss, deleteTask_miss s taskId now hmiss,
    toggleSubtask_miss s taskId i hmiss, ?_⟩
  intro pre post x j hs hpre hj
  exact toggleSubtask_miss_index s x.id j pre post x hs rfl hpre
    (subtaskAt_out_of_range x j hj)

/-- C15 at a concrete input: an unknown id on a store with a pinned task and a
record in the undo buffer, and the indices 2 and -1 on a task with two
subtasks. -/
theorem lookup_miss_is_noop_witness :
    updateTask { demoState [demoTaskWithSubtasks "p"] ["p"] with
        deletedTasks := [demoTask "a" "A"] } "zz" onlyTitle =
      { demoState [demoTaskWithSubtasks "p"] ["p"] with deletedTasks := [demoTask "a" "A"] } ∧
    deleteTask { demoState [demoTaskWithSubtasks "p"] ["p"] with
        deletedTasks := [demoTask "a" "A"] } "zz" 0 =
      { demoState [demoTaskWithSubtasks "p"] ["p"] with deletedTasks := [demoTask "a" "A"] } ∧
    toggleSubtask { demoState [demoTaskWithSubtasks "p"] ["p"] with
        deletedTasks := [demoTask "a" "A"] } (demoTaskWithSubtasks "p").id 2 =
      { demoState [demoTaskWithSubtasks "p"] ["p"] with deletedTasks := [demoTask "a" "A"] } ∧
    toggleSubtask { demoState [demoTaskWithSubtasks "p"] ["p"] with
        deletedTasks := [demoTask "a" "A"] } (demoTaskWithSubtasks "p").id (-1) =
      { demoState [demoTaskWithSubtasks "p"] ["p"] with deletedTasks := [demoTask "a" "A"] } :=
  have h := lookup_miss_is_noop
    { demoState [demoTaskWithSubtasks "p"] ["p"] with deletedTasks := [demoTask "a" "A"] }
    "zz" onlyTitle 0 0 (by decide)
  ⟨h.1, h.2.1,
    h.2.2.2 [] [] (demoTaskWithSubtasks "p") 2 rfl (by simp) (by decide),
    h.2.2.2 [] [] (demoTaskWithSubtasks "p") (-1) rfl (by simp) (by decide)⟩

/-! ## C16: a completed task has completed subtasks -/

theorem flipCompletion_subtasksDone (nowIso : String) (t : Task) :
    subtasksDone (flipCompletion nowIso t) := by
  unfold subtasksDone flipCompletion
  cases hc : t.completed with
  | true => simp
  | false =>
    intro _ st hst
    cases hs : t.subtasks with
    | nil => simp [hs] at hst
    | cons a l =>
      simp only [hs, Bool.not_false, List.length_cons, gt_iff_lt, Nat.zero_lt_succ,
        decide_True, Bool.and_self, if_true] at hst
      obtain ⟨st0, -, rfl⟩ := List.mem_map.1 hst
      rfl

theorem markReminded_subtasksDone (host : Host) (now : Int) (t : Task)
    (ht : subtasksDone t) : subtasksDone (markReminded host now t) := by
  unfold markReminded; split
  · exact ht
  · exact ht

theorem step_cascadeInv (host : Host) (s : State) (op : Op)
    (hop : cascadeSafe s op) (h : CascadeInv s) : CascadeInv (step host s op) := by
  obtain ⟨hl, hb⟩ := h
  cases op with
  | createTask newId nowIso d =>
    refine ⟨?_, hb⟩
    intro t ht
    simp only [step, createTask, saveData, List.mem_append, List.mem_singleton] at ht
    rcases ht with ht | rfl
    · exact hl t ht
    · intro hc; simp at hc
  | updateTask taskId u =>
    simp only [step]
    rcases findIndex_id_cases s.tasks taskId with ⟨-, hm⟩ | ⟨pre, x, post, hs, -, -, hx, hpre⟩
    · rw [updateTask_miss s taskId u hm]; exact ⟨hl, hb⟩
    · rw [updateTask_hit s taskId u pre post x hs hx hpre]
      refine ⟨?_, hb⟩
      intro t ht
      simp only [saveData, List.mem_append, List.mem_cons] at ht
      rcases ht with ht | rfl | ht
      · exact hl t (by rw [hs]; simp [ht])
      · have hx0 := hl x (by rw [hs]; simp)
        unfold subtasksDone mergeUpdates
        simpa [hop.1, hop.2] using hx0
      · exact hl t (by rw [hs]; simp [ht])
  | deleteTask taskId now =>
    simp only [step]
    rcases findIndex_id_cases s.tasks taskId with ⟨-, hm⟩ | ⟨pre, x, post, hs, -, -, hx, hpre⟩
    · rw [deleteTask_miss s taskId now hm]; exact ⟨hl, hb⟩
    · rw [deleteTask_hit s taskId now pre post x hs hx hpre]
      constructor
      · intro t ht
        simp only [showUndoBar, saveData, List.mem_append] at ht
        rcases ht with ht | ht
        · exact hl t (by rw [hs]; simp [ht])
        · exact hl t (by rw [hs]; simp [ht])
      · intro t ht
        simp only [showUndoBar, saveData, List.mem_append, List.mem_singleton] at ht
        rcases ht with ht | rfl
        · exact hb t ht
        · exact hl t (by rw [hs]; simp)
  | toggleTaskCompletion taskId nowIso =>
    simp only [step]
    rcases findIndex_id_cases s.tasks taskId with ⟨-, hm⟩ | ⟨pre, x, post, hs, -, -, hx, hpre⟩
    · rw [toggleTaskCompletion_miss s taskId nowIso hm]; exact ⟨hl, hb⟩
    · rw [toggleTaskCompletion_hit s taskId nowIso pre post x hs hx hpre]
      constructor
      · intro t ht
        rw [stopRinging_tasks] at ht
        simp only [saveData, List.mem_append, List.mem_cons] at ht
        rcases ht with ht | rfl | ht
        · exact hl t (by rw [hs]; simp [ht])
        · exact flipCompletion_subtasksDone nowIso x
        · exact hl t (by rw [hs]; simp [ht])
      · intro t ht
        rw [stopRinging_deletedTasks] at ht
        exact hb t ht
  | toggleSubtask taskId i =>
    simp only [step]
    rcases findIndex_id_cases s.tasks taskId with ⟨-, hm⟩ | ⟨pre, x, post, hs, -, -, hx, hpre⟩
    · rw [toggleSubtask_miss s taskId i hm]; exact ⟨hl, hb⟩
    · cases hi : subtaskAt x i with
      | none => rw [toggleSubtask_miss_index s taskId i pre post x hs hx hpre hi]; exact ⟨hl, hb⟩
      | some st =>
        rw [toggleSubtask_hit s taskId i pre post x st hs hx hpre hi]
        refine ⟨?_, hb⟩
        intro t ht
        simp only [saveData, List.mem_append, List.mem_cons] at ht
        rcases ht with ht | rfl | ht
        · exact hl t (by rw [hs]; simp [ht])
        · have hopen : x.completed = false := hop x (by rw [hs]; simp) hx
          intro hc
          simp [hopen] at hc
        · exact hl t (by rw [hs]; simp [ht])
  | toggleDailyTop3 taskId =>
    simp only [step, toggleDailyTop3]
    split
    · split
      · exact ⟨hl, hb⟩
      · exact ⟨hl, hb⟩
    · exact ⟨hl, hb⟩
  | undoDelete =>
    simp only [step, undoDelete]
    split
    · split
      · exact ⟨hl, hb⟩
      · rename_i r hr
        have hmem : r ∈ s.deletedTasks := List.mem_of_getLast?_eq_some hr
        constructor
        · intro t ht
          simp only [saveData, List.mem_append, List.mem_singleton] at ht
          rcases ht with ht | rfl
          · exact hl t ht
          · exact hb t hmem
        · intro t ht
          exact hb t (List.dropLast_subset _ ht)
    · exact ⟨hl, hb⟩
  | importData file => exact absurd hop (by simp [cascadeSafe])
  | tick now =>
    simp only [step]
    constructor
    · intro t ht
      rw [tick_tasks] at ht
      obtain ⟨t0, ht0, rfl⟩ := List.mem_map.1 ht
      exact markReminded_subtasksDone host now t0 (hl t0 ht0)
    · intro t ht
      simp only [tick] at ht
      rw [tickLoop_deletedTasks] at ht
      exact hb t ht
  | advanceTo t1 =>
    simp only [step]
    constructor
    · intro t ht
      rw [advanceTo_tasks] at ht
      exact hl t ht
    · intro t ht
      simp only [advanceTo] at ht
      rw [foldl_expire_deletedTasks] at ht
      split at ht
      · exact hb t ht
      · simp at ht

theorem run_cascadeInv (host : Host) (ops : List Op) (s : State)
    (hops : cascadeSafeRun host s ops) (h : CascadeInv s) :
    CascadeInv (run host s ops) := by
  induction ops generalizing s with
  | nil => exact h
  | cons op ops ih => exact ih _ hops.2 (step_cascadeInv host s op hops.1 h)

/-- JS `toggleSubtask` on a task that is completed and has a subtask at the
index: that one subtask is flipped, nothing else of the task changes, and when
the subtask was completed the task no longer satisfies `subtasksDone`. -/
theorem toggleSubtask_on_completed (s : State) (pre post : List Task) (x : Task) (i : Int)
    (st : Subtask) (hs : s.tasks = pre ++ x :: post) (hpre : ∀ y ∈ pre, y.id ≠ x.id)
    (hc : x.completed = true) (hi : subtaskAt x i = some st) :
    (toggleSubtask s x.id i).tasks =
      pre ++ withSubtaskFlipped x i st :: post ∧
    (st.completed = true →
      ¬ subtasksDone (withSubtaskFlipped x i st)) := by
  refine ⟨?_, ?_⟩
  · rw [toggleSubtask_hit s x.id i pre post x st hs rfl hpre hi]
    rfl
  · intro hst hdone
    have hlt : i.toNat < x.subtasks.length := by
      unfold subtaskAt at hi
      split at hi
      · exact (List.getElem?_eq_some.1 hi).1
      · simp at hi
    have hmem : ({ st with completed := !st.completed } : Subtask) ∈
        (withSubtaskFlipped x i st).subtasks :=
      List.mem_set _ _ hlt _
    have := hdone hc _ hmem
    simp [hst] at this

/-- C16, as amended. Starting from a state in which every completed task, live
or in the undo buffer, has all its subtasks completed (such as the empty store),
the same holds for every live task after every sequence of `createTask`,
`toggleTaskCompletion`, `deleteTask`, `undoDelete`, and `toggleSubtask` calls
on tasks that are not completed when the call is made (and of pin toggles,
ticks, undo expiries and updates that carry neither `completed` nor
`subtasks`). In every state, `toggleSubtask` on a completed task `x` (the first
live task with its id) and an index at which `x` has a subtask flips that one
subtask and leaves the rest of `x` as it was, `completed` included; when the
subtask was completed, `x` is then completed with an open subtask. -/
theorem completed_tasks_have_completed_subtasks (host : Host) (s : State) (ops : List Op)
    (hstart : CascadeInv s) (hops : cascadeSafeRun host s ops) :
    (∀ t ∈ (run host s ops).tasks, t.completed = true →
      ∀ st ∈ t.subtasks, st.completed = true) ∧
    (∀ (s2 : State) (pre post : List Task) (x : Task) (i : Int) (st : Subtask),
      s2.tasks = pre ++ x :: post → (∀ y ∈ pre, y.id ≠ x.id) → x.completed = true →
      subtaskAt x i = some st →
      (toggleSubtask s2 x.id i).tasks =
        pre ++ withSubtaskFlipped x i st :: post ∧
      (st.completed = true →
        ¬ subtasksDone (withSubtaskFlipped x i st))) :=
  ⟨(run_cascadeInv host ops s hops hstart).1,
    fun s2 pre post x i st hs hpre hc hi => toggleSubtask_on_completed s2 pre post x i st hs hpre hc hi⟩

/-- C16 as amended, at a concrete input: a task with an open subtask is
created, its subtask toggled, the task completed, deleted and restored; and the
first subtask of a completed task with two completed subtasks is toggled. -/
theorem completed_tasks_have_completed_subtasks_witness :
    CascadeInv emptyState ∧
    (∀ t ∈ (run demoHost emptyState
        [.createTask "n1" "100" demoTaskData, .toggleSubtask "n1" 0, .toggleSubtask "n1" 0,
         .toggleTaskCompletion "n1" "200", .deleteTask "n1" 0, .undoDelete]).tasks,
      t.completed = true → ∀ st ∈ t.subtasks, st.completed = true) ∧
    (toggleSubtask (demoState [demoTask "a" "A", completedWithSubtasks] [])
      completedWithSubtasks.id 0).tasks =
      [demoTask "a" "A"] ++
        withSubtaskFlipped completedWithSubtasks 0 { title := "one", completed := true }
          :: [] ∧
    ¬ subtasksDone
      (withSubtaskFlipped completedWithSubtasks 0 { title := "one", completed := true }) :=
  have h := completed_tasks_have_completed_subtasks demoHost emptyState
      [.createTask "n1" "100" demoTaskData, .toggleSubtask "n1" 0, .toggleSubtask "n1" 0,
       .toggleTaskCompletion "n1" "200", .deleteTask "n1" 0, .undoDelete]
      ⟨by decide, by decide⟩
      (by
        refine ⟨trivial, ?_, ?_, trivial, trivial, trivial, trivial⟩
        · simp only [cascadeSafe]; decide
        · simp only [cascadeSafe]; decide)
  have h2 := h.2 (demoState [demoTask "a" "A", completedWithSubtasks] [])
    [demoTask "a" "A"] [] completedWithSubtasks 0 { title := "one", completed := true } rfl
    (by decide) rfl rfl
  ⟨⟨by decide, by decide⟩, h.1, h2.1, h2.2 rfl⟩

/-- C16 as stated fails. From the empty store: a task with one subtask is
created and completed, which completes the subtask; `toggleSubtask` on that
subtask then leaves a live task with `completed` true and a subtask with
`completed` false. -/
theorem completed_tasks_have_completed_subtasks_counterexample :
    (∀ t ∈ (run demoHost emptyState
        [.createTask "n1" "100" demoTaskData, .toggleTaskCompletion "n1" "200"]).tasks,
      subtasksDone t) ∧
    ¬ ∀ t ∈ (run demoHost emptyState
        [.createTask "n1" "100" demoTaskData, .toggleTaskCompletion "n1" "200",
         .toggleSubtask "n1" 0]).tasks, subtasksDone t := by
  decide

/-! ## C17: the repeating alert -/

/-- C17, the code at the failing input. In a store with two open tasks past
their deadline and no timer running, one run of the deadline checker calls
`notifyTaskDue` twice: two repeating-alert intervals, with handles 1 and 2, are
started and `ringInterval` holds only the second. `stopRinging` then clears
interval 2 and leaves interval 1 live with `ringInterval` null, so that a second
`stopRinging` changes nothing; `toggleTaskCompletion` on either task leaves
interval 1 live as well. -/
theorem stop_ringing_leaves_interval_live :
    (tick demoHost twoDueState 150).2 = [dueTask, otherDueTask] ∧
    (tick demoHost twoDueState 150).1.intervals = [1, 2] ∧
    (tick demoHost twoDueState 150).1.ringInterval = some 2 ∧
    (stopRinging (tick demoHost twoDueState 150).1).intervals = [1] ∧
    (stopRinging (tick demoHost twoDueState 150).1).ringInterval = none ∧
    stopRinging (stopRinging (tick demoHost twoDueState 150).1) =
      stopRinging (tick demoHost twoDueState 150).1 ∧
    (toggleTaskCompletion (tick demoHost twoDueState 150).1 "d" "200").intervals = [1] ∧
    (toggleTaskCompletion (toggleTaskCompletion (tick demoHost twoDueState 150).1 "d" "200")
      "o" "200").intervals = [1] := by
  decide

end TaskPlanner
